import Mathlib

set_option maxHeartbeats 1000000

/-!
Verification development for the prompt-library browser extension.

The JavaScript sources are embedded shallowly:

* JavaScript values are modelled by the inductive type `JSVal`
  (strings, numbers restricted to integers, booleans, `null`,
  `undefined`, arrays, and objects as association lists of fields;
  object reference identity is not modelled, and object field lists are
  kept duplicate-free wherever the original program builds them).
* Stateful services (template manager, storage, page injection) are
  modelled by explicit state passing: a function that in JavaScript
  reads and writes `chrome.storage` here receives the persisted
  collection and returns the new persisted collection together with an
  `Except`-style result (an exception corresponds to `Except.error`).
* `async` plumbing is dropped; the storage round-trips of the manager
  are modelled as succeeding (storage I/O failure is modelled only
  where a claim is about it, in `StorageRead` for `getTemplates`).
-/

/-- JavaScript values as used by the template engine and manager. -/
inductive JSVal where
  | vStr (s : String)
  | vNum (n : Int)
  | vBool (b : Bool)
  | vNull
  | vUndefined
  | vArr (elems : List JSVal)
  | vObj (fields : List (String × JSVal))
deriving Inhabited

/-- JavaScript truthiness of a value. -/
def jsTruthy : JSVal → Bool
  | .vStr s => s != ""
  | .vNum n => n != 0
  | .vBool b => b
  | .vNull => false
  | .vUndefined => false
  | .vArr _ => true
  | .vObj _ => true

/-- The string returned by the JavaScript `typeof` operator
(`typeof null` and `typeof` of an array are both "object"). -/
def jsTypeof : JSVal → String
  | .vStr _ => "string"
  | .vNum _ => "number"
  | .vBool _ => "boolean"
  | .vNull => "object"
  | .vUndefined => "undefined"
  | .vArr _ => "object"
  | .vObj _ => "object"

/-- JavaScript strict equality. On primitives it is value equality; two
distinct object or array references are never strictly equal, which we
approximate by returning false whenever either operand is an array or
object (the sources only ever compare ids and names, which are
primitives, with this operator). -/
def jsStrictEq : JSVal → JSVal → Bool
  | .vStr a, .vStr b => a == b
  | .vNum a, .vNum b => a == b
  | .vBool a, .vBool b => a == b
  | .vNull, .vNull => true
  | .vUndefined, .vUndefined => true
  | _, _ => false

/-- First binding of a key in an object field list. -/
def lookupField (fields : List (String × JSVal)) (key : String) : Option JSVal :=
  (fields.find? (fun p => p.1 == key)).map (fun p => p.2)

/-- JavaScript property access `v[key]`: `undefined` when the key is
absent. Property access on primitives is not used by the sources and is
modelled as `undefined`. -/
def getField (v : JSVal) (key : String) : JSVal :=
  match v with
  | .vObj fields => (lookupField fields key).getD .vUndefined
  | _ => .vUndefined

/-- JavaScript property assignment `v[key] = val`: overwrites the
binding in place when the key exists, otherwise appends a new binding
(property insertion order, as JavaScript objects keep it). Assignment
to a non-object is a no-op here (the sources only assign to objects). -/
def setField (v : JSVal) (key : String) (val : JSVal) : JSVal :=
  match v with
  | .vObj fields =>
      if fields.any (fun p => p.1 == key) then
        .vObj (fields.map (fun p => if p.1 == key then (p.1, val) else p))
      else
        .vObj (fields ++ [(key, val)])
  | other => other

/-- Fields of an object value; any other value spreads to nothing. -/
def objFields : JSVal → List (String × JSVal)
  | .vObj fields => fields
  | _ => []

/-- Object spread of two field lists, as in a JavaScript object literal
spreading `a` then `b`: keys of `a` keep their position but take the
value from `b` when `b` also has the key; keys only in `b` are appended
in the order of `b`. -/
def spreadFields (a b : List (String × JSVal)) : List (String × JSVal) :=
  a.map (fun p => (p.1, (lookupField b p.1).getD p.2))
  ++ b.filter (fun q => !(a.any (fun p => p.1 == q.1)))

/-- Embedding of the object literal that spreads `a` and then `b`. -/
def jsSpread (a b : JSVal) : JSVal :=
  .vObj (spreadFields (objFields a) (objFields b))

mutual
/-- JavaScript `String(v)` conversion. -/
def jsToString : JSVal → String
  | .vStr s => s
  | .vNum n => toString n
  | .vBool b => if b then "true" else "false"
  | .vNull => "null"
  | .vUndefined => "undefined"
  | .vArr xs => jsToStringItems xs
  | .vObj _ => "[object Object]"

/-- Array-to-string conversion: elements joined with commas, with
`null` and `undefined` elements printing as empty. -/
def jsToStringItems : List JSVal → String
  | [] => ""
  | x :: rest =>
      (match x with
       | .vNull => ""
       | .vUndefined => ""
       | y => jsToString y) ++
      (match rest with
       | [] => ""
       | r :: rs => "," ++ jsToStringItems (r :: rs))
end

/-! ## Template engine (src/utils/template.js) -/

/-- Character class of the regex `\s` (ECMAScript WhiteSpace and
LineTerminator), also the class trimmed by `String.prototype.trim`:
tab, line feed, vertical tab, form feed, carriage return, space,
no-break space, Ogham space mark, the en-quad..hair-space range, line
separator, paragraph separator, narrow no-break space, medium
mathematical space, ideographic space, and the byte-order mark. -/
def isJsWhitespace (c : Char) : Bool :=
  (0x9 <= c.toNat && c.toNat <= 0xd) || c.toNat == 0x20 || c.toNat == 0xa0 ||
  c.toNat == 0x1680 || (0x2000 <= c.toNat && c.toNat <= 0x200a) ||
  c.toNat == 0x2028 || c.toNat == 0x2029 || c.toNat == 0x202f ||
  c.toNat == 0x205f || c.toNat == 0x3000 || c.toNat == 0xfeff

/-- Character class of the regex `\w`: ASCII letters, digits, and the
underscore. -/
def isWordChar (c : Char) : Bool :=
  (0x61 <= c.toNat && c.toNat <= 0x7a) || (0x41 <= c.toNat && c.toNat <= 0x5a) ||
  (0x30 <= c.toNat && c.toNat <= 0x39) || c.toNat == 0x5f

/-- Character class of `[\w.-]`, the placeholder identifier characters:
word characters, the dot, and the hyphen. -/
def isKeyChar (c : Char) : Bool :=
  isWordChar c || c.toNat == 0x2e || c.toNat == 0x2d

/-- Embedding of `String.prototype.trim` on character lists. -/
def jsTrimChars (l : List Char) : List Char :=
  ((l.dropWhile isJsWhitespace).reverse.dropWhile isJsWhitespace).reverse

/-- Embedding of `String.prototype.trim`. -/
def jsTrim (s : String) : String :=
  String.mk (jsTrimChars s.data)

/-- Match of the placeholder regex at the start of `c :: cs`. The regex
has no backtracking freedom here: its character classes (`\s`, `[\w.-]`,
and the literal braces) are pairwise disjoint, so the greedy scan below
is exactly its matching behaviour. On success, returns the captured key
and the number of characters the whole match consumes from `cs`
(the full match text is `c :: cs.take n`). -/
def placeholderAt (c : Char) (cs : List Char) : Option (List Char × Nat) :=
  if c = '\x7b' then
    match cs with
    | [] => none
    | c2 :: t =>
      if c2 = '\x7b' then
        let w1 := (t.takeWhile isJsWhitespace).length
        let key := (t.drop w1).takeWhile isKeyChar
        if key.isEmpty then none
        else
          let w2 := ((t.drop (w1 + key.length)).takeWhile isJsWhitespace).length
          match t.drop (w1 + key.length + w2) with
          | d1 :: d2 :: _ =>
            if d1 = '\x7d' ∧ d2 = '\x7d' then some (key, 1 + w1 + key.length + w2 + 2)
            else none
          | _ => none
      else none
  else none

/-- One token of the decomposition of a template body by the global
placeholder regex: either a single character of text between matches,
or one placeholder match carrying its captured key and its full
source text. -/
inductive TemplateToken where
  | lit (c : Char)
  | ph (key : String) (src : List Char)

/-- Decomposition of a character list by the global regex scan: at each
position, emit a placeholder token and continue after the match, or
emit the current character and advance by one. This is the semantics of
both `String.prototype.replace` and `String.prototype.match` with the
global placeholder regex. -/
def tokenizeAux : Nat → List Char → List TemplateToken
  | _, [] => []
  | 0, _ :: _ => []
  | fuel + 1, c :: cs =>
    match placeholderAt c cs with
    | some (key, n) => .ph (String.mk key) (c :: cs.take n) :: tokenizeAux fuel (cs.drop n)
    | none => .lit c :: tokenizeAux fuel cs

/-- The scan of a whole character list; the character count is always
enough fuel, since every step consumes at least one character. -/
def tokenizeChars (l : List Char) : List TemplateToken := tokenizeAux l.length l

/-- Source text of a token (for a placeholder, its full match text). -/
def tokenSource : TemplateToken → List Char
  | .lit c => [c]
  | .ph _ src => src

/-- What the replacement callback of `fillTemplateVariables` produces
for one token: text between matches is kept; a match is replaced by
`String(variables[key])` when `variables` has the key as an own
property and by its original text otherwise. -/
def substToken (vars : List (String × JSVal)) : TemplateToken → List Char
  | .lit c => [c]
  | .ph key src =>
      if vars.any (fun p => p.1 == key) then
        (jsToString ((lookupField vars key).getD .vUndefined)).data
      else src

/-- Embedding of `fillTemplateVariables` from src/utils/template.js.
The value map argument is the `variables` object, as a field list. The
guard `!template || typeof template !== 'string'` reduces, for string
input, to the empty string test; `template.replace(regex, cb)` is the
token decomposition with each token rewritten through the callback. -/
def fillTemplateVariables (template : String) (vars : List (String × JSVal)) : String :=
  if template = "" then ""
  else String.mk (((tokenizeChars template.data).map (substToken vars)).flatten)

/-- Applying `fillTemplateVariables` to an arbitrary value, as
`buildPromptText` does with `template.body`: the `typeof` guard makes
every non-string argument yield the empty string. -/
def fillTemplateVariablesJS (v : JSVal) (vars : List (String × JSVal)) : String :=
  match v with
  | .vStr s => fillTemplateVariables s vars
  | _ => ""

/-- Deduplication performed by `[...new Set(list)]`: keeps the first
occurrence of every element, in order. -/
def jsSetDedupAux : Nat → List String → List String
  | _, [] => []
  | 0, _ :: _ => []
  | fuel + 1, x :: xs => x :: jsSetDedupAux fuel (xs.filter (fun y => y != x))

/-- The deduplication of a whole list; the element count is always
enough fuel. -/
def jsSetDedup (l : List String) : List String := jsSetDedupAux l.length l

/-- Key of a placeholder token. -/
def tokenKey : TemplateToken → Option String
  | .ph key _ => some key
  | .lit _ => none

/-- Embedding of `extractVariableKeys` from src/utils/template.js:
collect the full text of every match of the global placeholder regex,
strip every brace from each match, trim it, and deduplicate with a
`Set`. -/
def extractVariableKeys (templateBody : String) : List String :=
  if templateBody = "" then []
  else
    jsSetDedup
      (((tokenizeChars templateBody.data).filterMap
          (fun t => match t with | .ph _ src => some src | .lit _ => none)).map
        (fun m => jsTrim (String.mk (m.filter (fun c => !(c == '\x7b' || c == '\x7d'))))))

/-- One entry of the static `TUNE_PRESETS` table: its snippets are all
string literals, which the model reflects in the field types. -/
structure TunePreset where
  name : String
  description : String
  snippet : String

/-- The tone-snippet contribution to the parts array of
`buildPromptText`: nothing unless the tune key is truthy, not the
neutral key, and present in the table with a snippet that is truthy and
non-blank after trimming. -/
def tonePart (tunePresets : String → Option TunePreset) (tune : String) : List String :=
  match (if tune ≠ "" ∧ tune ≠ "neutral" then tunePresets tune else none) with
  | some preset =>
      if preset.snippet ≠ "" ∧ jsTrim preset.snippet ≠ "" then [jsTrim preset.snippet]
      else []
  | none => []

/-- Embedding of `buildPromptText` from src/utils/template.js. The
`tunePresets` table is a key lookup (`none` models an absent key); the
`prefix` parameter is named `pfx`. -/
def buildPromptText (template : JSVal) (vars : List (String × JSVal))
    (tune : String) (pfx : String) (tunePresets : String → Option TunePreset) : String :=
  if ¬ jsTruthy template ∨ ¬ jsTruthy (getField template "body") then ""
  else
    let parts : List String :=
      (if pfx ≠ "" ∧ jsTrim pfx ≠ "" then [jsTrim pfx] else [])
      ++ tonePart tunePresets tune
      ++ (let filledBody := fillTemplateVariablesJS (getField template "body") vars
          if jsTrim filledBody ≠ "" then [jsTrim filledBody] else [])
    String.intercalate "\n\n" (parts.filter (fun s => s != ""))

/-- Result record of `validateTemplate`. -/
structure ValidationResult where
  isValid : Bool
  errors : List String
deriving DecidableEq, Repr

/-- Errors contributed by the variable at a given index in the
`forEach` loop of `validateTemplate`. -/
def variableErrors (index : Nat) (v : JSVal) : List String :=
  if ¬ jsTruthy v ∨ jsTypeof v ≠ "object" then
    ["Variable at index " ++ toString index ++ " must be an object"]
  else if ¬ jsTruthy (getField v "key") ∨ jsTypeof (getField v "key") ≠ "string" then
    ["Variable at index " ++ toString index ++ " must have a valid string key"]
  else
    (if jsTruthy (getField v "type") ∧
        ¬ (jsStrictEq (getField v "type") (.vStr "text") = true ∨
           jsStrictEq (getField v "type") (.vStr "select") = true) then
      ["Variable \"" ++ jsToString (getField v "key") ++
        "\" has invalid type (expected \x27text\x27 or \x27select\x27)"]
    else []) ++
    (if jsStrictEq (getField v "type") (.vStr "select") then
      (match getField v "options" with
       | .vArr opts =>
           if opts.all (fun o => jsTypeof o == "string") then []
           else ["Variable \"" ++ jsToString (getField v "key") ++ "\" options must be strings"]
       | _ => ["Variable \"" ++ jsToString (getField v "key") ++
                "\" options must be an array when type is \x27select\x27"])
    else [])

/-- Errors contributed by the `variables` field of a template: the
array requirement, or the per-variable checks of the `forEach` loop. -/
def variablesPart (v : JSVal) : List String :=
  match v with
  | .vArr vs => (vs.enum.map (fun p => variableErrors p.1 p.2)).flatten
  | _ => ["Template variables must be an array"]

/-- Embedding of `validateTemplate` from src/utils/template.js: the
structural check over a template record, accumulating every violation
in order. -/
def validateTemplate (template : JSVal) : ValidationResult :=
  if ¬ jsTruthy template ∨ jsTypeof template ≠ "object" then
    ⟨false, ["Template must be an object"]⟩
  else
    let errors :=
      (if ¬ jsTruthy (getField template "id") ∨ jsTypeof (getField template "id") ≠ "string" then
        ["Template must have a valid string ID"] else [])
      ++ (if ¬ jsTruthy (getField template "name") ∨ jsTypeof (getField template "name") ≠ "string" then
        ["Template must have a valid string name"] else [])
      ++ (if ¬ jsTruthy (getField template "body") ∨ jsTypeof (getField template "body") ≠ "string" then
        ["Template must have a valid string body"] else [])
      ++ variablesPart (getField template "variables")
    ⟨errors.isEmpty, errors⟩

/-! ## Template manager (src/services/templateManager.js)

The persisted collection is passed in and returned explicitly; a
JavaScript exception is `Except.error` carrying the error message. The
storage write itself is modelled as succeeding, so the state returned
on the error path is always the untouched input state, exactly as the
sources leave storage untouched when they throw before `saveTemplates`
completes. -/

/-- One line of the multi-error message of `saveTemplates` and
`importTemplates` for an invalid record. -/
def invalidTemplateLine (t : JSVal) : String :=
  "Template \"" ++
    jsToString (if jsTruthy (getField t "name") then getField t "name" else getField t "id") ++
    "\": " ++ String.intercalate ", " (validateTemplate t).errors

/-- Embedding of `saveTemplates`: validates every template of the
collection and persists the whole collection only when all are valid
(the `Array.isArray` guard always passes here since the collection is a
list by type). -/
def saveTemplates (templates : List JSVal) : Except String (List JSVal) :=
  let invalid := templates.filter (fun t => !(validateTemplate t).isValid)
  if invalid.isEmpty then .ok templates
  else .error ("Invalid templates found:\n" ++ String.intercalate "\n" (invalid.map invalidTemplateLine))

/-- The candidate record after the id-generation step of `addTemplate`:
a generated id (passed in as `freshId`, standing for the result of
`crypto.randomUUID()`) is assigned only when the candidate has no
truthy id. -/
def assignedCandidate (cand : JSVal) (freshId : String) : JSVal :=
  if jsTruthy (getField cand "id") then cand else setField cand "id" (.vStr freshId)

/-- Embedding of `addTemplate`: id generation, duplicate-id check,
duplicate-name check, validation, then append and persist. -/
def addTemplate (state : List JSVal) (cand : JSVal) (freshId : String) :
    List JSVal × Except String JSVal :=
  let template := assignedCandidate cand freshId
  if state.any (fun t => jsStrictEq (getField t "id") (getField template "id")) then
    (state, .error ("Template with ID \"" ++ jsToString (getField template "id") ++ "\" already exists"))
  else if state.any (fun t => jsStrictEq (getField t "name") (getField template "name")) then
    (state, .error ("Template with name \"" ++ jsToString (getField template "name") ++ "\" already exists"))
  else if !(validateTemplate template).isValid then
    (state, .error ("Invalid template: " ++ String.intercalate ", " (validateTemplate template).errors))
  else
    match saveTemplates (state ++ [template]) with
    | .ok ts => (ts, .ok template)
    | .error e => (state, .error e)

/-- Embedding of `updateTemplate`: find the record by id, merge the
patch over it by object spread, re-validate, reject a name collision
with a different id, then persist the collection with the one record
replaced. -/
def updateTemplate (state : List JSVal) (templateId : String) (updates : JSVal) :
    List JSVal × Except String JSVal :=
  match state.findIdx? (fun t => jsStrictEq (getField t "id") (.vStr templateId)) with
  | none => (state, .error ("Template with ID \"" ++ templateId ++ "\" not found"))
  | some i =>
    let updated := jsSpread (state.getD i .vUndefined) updates
    if !(validateTemplate updated).isValid then
      (state, .error ("Invalid template after update: " ++
        String.intercalate ", " (validateTemplate updated).errors))
    else if state.any (fun t =>
        !(jsStrictEq (getField t "id") (.vStr templateId)) &&
        jsStrictEq (getField t "name") (getField updated "name")) then
      (state, .error ("Template with name \"" ++ jsToString (getField updated "name") ++ "\" already exists"))
    else
      match saveTemplates (state.set i updated) with
      | .ok ts => (ts, .ok updated)
      | .error e => (state, .error e)

/-! ## Storage reads (src/services/storage.js, getTemplates) -/

/-- Outcome of one `chrome.storage.sync.get` round-trip for a key: the
key can be present, absent, or the read itself can fail. -/
inductive StorageRead where
  | ok (value : Option JSVal)
  | fail (msg : String)

/-- Embedding of `getStorageValue`: the stored value when present, the
default when the key is absent, and the default again when the read
fails (the catch branch). It never propagates an error. -/
def getStorageValue (r : StorageRead) (defaultValue : JSVal) : JSVal :=
  match r with
  | .ok (some v) => v
  | .ok none => defaultValue
  | .fail _ => defaultValue

/-- Embedding of `getTemplates`. `DEFAULT_TEMPLATES` of
constants/schema.js is an opaque parameter `defaults` here — no claim
depends on its concrete content. `getStorageValue` never throws in the
model, which mirrors the sources, where its own catch branch already
returns the default; the catch branch of `getTemplates` returns the
default as well, so the function is total either way. -/
def getTemplates (defaults : List JSVal) (r : StorageRead) : List JSVal :=
  match getStorageValue r (.vArr defaults) with
  | .vArr ts => ts
  | _ => defaults

/-! ## Page injection (src/services/injection.js, injectToActiveTab)

The page-context function executed by `chrome.scripting.executeScript`
is modelled as a pure function over a DOM state. `document.querySelector`
is an oracle from selector strings to element identifiers; element
state lives in the DOM record. A DOM exception raised while focusing or
writing the element (the event of the `try` block) is modelled by the
`writeThrows` flag of the element, in which case the element is left
unmodified here (the exception is modelled as raised before the first
mutation). -/

/-- State of one editable element on the page. A contenteditable
element stores structured content blocks; a plain textarea stores a
string value. -/
structure DomElement where
  contenteditable : Bool
  value : String
  blocks : List String
  writeThrows : Option String
deriving DecidableEq, Repr, Inhabited

/-- State of the target page: the selector oracle, the element states,
and whether the send control has been activated. -/
structure PageDom where
  query : String → Option Nat
  elems : Nat → DomElement
  clickedSend : Bool

/-- The ordered input-element selector fallback list of the injected
page function. -/
def inputSelectors : List String :=
  ["div[contenteditable=\"true\"][id=\"prompt-textarea\"]",
   "div[contenteditable=\"true\"][translate=\"no\"]",
   "textarea[data-id=\"root\"]",
   "textarea[placeholder*=\"Message\"]",
   "textarea[placeholder*=\"Send a message\"]"]

/-- The ordered send-button selector fallback list. -/
def sendSelectors : List String :=
  ["button[data-testid=\"send-button\"]",
   "button[aria-label=\"Send message\"]",
   "button[aria-label=\"Send\" i]",
   "button[type=\"submit\"]"]

/-- A chain of `document.querySelector` calls joined with `||`: the
first selector that matches wins. -/
def queryChain (dom : PageDom) (selectors : List String) : Option Nat :=
  selectors.findSome? dom.query

/-- The structured result object the page-context function returns:
a success flag, and optional error and warning messages. -/
structure InjectResult where
  success : Bool
  error : Option String
  warning : Option String
deriving DecidableEq, Repr

/-- Embedding of the page-context function of `injectToActiveTab`
(the `func` passed to `executeScript`): look the input element up
through the fallback chain, write the text (structurally for
contenteditable elements, as a plain value for textareas), and
optionally click the send control. Every failure is returned as a
structured result, never thrown. -/
def injectTextIntoPage (dom : PageDom) (text : String) (autoSend : Bool) :
    InjectResult × PageDom :=
  match queryChain dom inputSelectors with
  | none => (⟨false, some "ChatGPT input not found", none⟩, dom)
  | some eid =>
    let el := dom.elems eid
    match el.writeThrows with
    | some msg => (⟨false, some msg, none⟩, dom)
    | none =>
      let el' := if el.contenteditable then { el with blocks := [text] }
                 else { el with value := text }
      let dom' : PageDom :=
        { dom with elems := fun i => if i = eid then el' else dom.elems i }
      if autoSend then
        match queryChain dom' sendSelectors with
        | some _ => (⟨true, none, none⟩, { dom' with clickedSend := true })
        | none => (⟨true, none, some "Text injected but send button not found"⟩, dom')
      else (⟨true, none, none⟩, dom')

/-- The active tab, when there is one: its url (`none` models a tab
whose `url` field is unavailable). -/
structure TabInfo where
  url : Option String

/-- Substring test, as `String.prototype.includes`. -/
def jsIncludes (s pat : String) : Bool :=
  decide (pat.data <:+: s.data)

/-- Embedding of `injectToActiveTab`: tab and domain checks, the
page-context function round-trip (`executeScript` is modelled as
succeeding and returning the one structured result), and the result
handling, which re-raises an unsuccessful structured result as an
exception carrying the structured message. The outer catch block
re-throws, so every failure reaches the caller as `Except.error`. -/
def injectToActiveTab (tab : Option TabInfo) (dom : PageDom) (text : String)
    (autoSend : Bool) : Except String (InjectResult × PageDom) :=
  match tab with
  | none => .error "No active tab found"
  | some t =>
    let url := (t.url).getD ""
    if ¬ (jsIncludes url "chat.openai.com" = true ∨ jsIncludes url "chatgpt.com" = true) then
      .error "Not on a supported ChatGPT domain"
    else
      let r := injectTextIntoPage dom text autoSend
      if r.1.success then .ok r
      else .error ((r.1.error).getD "Injection failed")

/-! ## JSON interchange (exportTemplates / importTemplates)

`JSON.stringify(templates, null, 2)` and `JSON.parse` are embedded over
character lists. Model boundaries: numbers are integers (the parser
rejects fractional and exponent literals rather than misread them,
and the collections under the claims contain no numbers at all); lone
surrogates do not exist in Lean strings; `JSON.stringify` drops
`undefined` object fields and nulls `undefined` array slots, which is
outside the model — `jsonSafe` below excludes `undefined` wherever the
serializer is reasoned about. -/

/-- Lowercase hex digit, as JSON.stringify uses in escapes. -/
def hexDigitChar (n : Nat) : Char :=
  if n < 10 then Char.ofNat ('0'.toNat + n) else Char.ofNat ('a'.toNat + (n - 10))

/-- Serialization of one string character: named escapes for the usual
control characters, a hex escape for the remaining control characters,
everything else literal. -/
def escapeChar (c : Char) : List Char :=
  if c = '"' then ['\\', '"']
  else if c = '\\' then ['\\', '\\']
  else if c = '\x08' then ['\\', 'b']
  else if c = '\t' then ['\\', 't']
  else if c = '\n' then ['\\', 'n']
  else if c = '\x0c' then ['\\', 'f']
  else if c = '\r' then ['\\', 'r']
  else if c.toNat < 32 then ['\\', 'u', '0', '0', hexDigitChar (c.toNat / 16), hexDigitChar (c.toNat % 16)]
  else [c]

/-- JSON string literal for a string value. -/
def renderString (s : String) : List Char :=
  '"' :: (s.data.map escapeChar).flatten ++ ['"']

/-- Decimal digits, least significant first. -/
def natDigitsRevAux : Nat → Nat → List Char
  | 0, _ => []
  | fuel + 1, n =>
    if n = 0 then [] else Char.ofNat ('0'.toNat + n % 10) :: natDigitsRevAux fuel (n / 10)

/-- Decimal digits of a positive number, least significant first; the
number itself is always enough fuel. -/
def natDigitsRev (n : Nat) : List Char := natDigitsRevAux n n

/-- Decimal notation of a natural number. -/
def renderNat (n : Nat) : List Char :=
  if n = 0 then ['0'] else (natDigitsRev n).reverse

/-- Decimal notation of an integer, as JSON.stringify prints one. -/
def renderInt (n : Int) : List Char :=
  if n < 0 then '-' :: renderNat n.natAbs else renderNat n.natAbs

/-- Indentation produced by the third argument 2 of JSON.stringify. -/
def indentChars (n : Nat) : List Char := List.replicate n ' '

mutual
/-- Embedding of `JSON.stringify(v, null, 2)` at nesting indentation
`ind`: pretty-printed JSON text with two-space indent steps.
`undefined` is rendered as null (reached only outside `jsonSafe`). -/
def renderJson : Nat → JSVal → List Char
  | _, .vStr s => renderString s
  | _, .vNum n => renderInt n
  | _, .vBool b => if b then "true".data else "false".data
  | _, .vNull => "null".data
  | _, .vUndefined => "null".data
  | _, .vArr [] => "[]".data
  | ind, .vArr (x :: rest) =>
      '[' :: '\n' :: (renderItems (ind + 2) (x :: rest) ++ '\n' :: (indentChars ind ++ [']']))
  | _, .vObj [] => "\x7b\x7d".data
  | ind, .vObj (f :: rest) =>
      '\x7b' :: '\n' :: (renderFields (ind + 2) (f :: rest) ++ '\n' :: (indentChars ind ++ ['\x7d']))

/-- Array elements, each on its own indented line, comma separated. -/
def renderItems : Nat → List JSVal → List Char
  | _, [] => []
  | ind, [x] => indentChars ind ++ renderJson ind x
  | ind, x :: y :: rest =>
      indentChars ind ++ (renderJson ind x ++ ',' :: '\n' :: renderItems ind (y :: rest))

/-- Object fields, each on its own indented line, comma separated. -/
def renderFields : Nat → List (String × JSVal) → List Char
  | _, [] => []
  | ind, [(k, v)] => indentChars ind ++ (renderString k ++ ':' :: ' ' :: renderJson ind v)
  | ind, (k, v) :: g :: rest =>
      indentChars ind ++ (renderString k ++ ':' :: ' ' :: (renderJson ind v ++ ',' :: '\n' :: renderFields ind (g :: rest)))
end

/-- Embedding of `JSON.stringify(templates, null, 2)`, the body of
`exportTemplates`. -/
def exportTemplates (templates : List JSVal) : String :=
  String.mk (renderJson 0 (.vArr templates))

/-- JSON insignificant whitespace. -/
def isJsonWs (c : Char) : Bool :=
  c == ' ' || c == '\n' || c == '\t' || c == '\r'

/-- Value of a hex digit character. -/
def parseHexDigit (c : Char) : Option Nat :=
  if '0' ≤ c ∧ c ≤ '9' then some (c.toNat - '0'.toNat)
  else if 'a' ≤ c ∧ c ≤ 'f' then some (c.toNat - 'a'.toNat + 10)
  else if 'A' ≤ c ∧ c ≤ 'F' then some (c.toNat - 'A'.toNat + 10)
  else none

/-- Prepend a parsed character to a string-body parse result. -/
def consStr (c : Char) : Option (List Char × List Char) → Option (List Char × List Char)
  | some (s, r) => some (c :: s, r)
  | none => none

/-- Parse the body of a JSON string literal after its opening quote, up
to and including the closing quote; returns the decoded characters and
the rest of the input. Unescaped control characters are rejected, as
JSON.parse rejects them; surrogate-pair escapes are outside the model. -/
def parseStringBody : List Char → Option (List Char × List Char)
  | [] => none
  | c :: rest =>
    if c = '"' then some ([], rest)
    else if c = '\\' then
      match rest with
      | [] => none
      | e :: r =>
        if e = '"' then consStr '"' (parseStringBody r)
        else if e = '\\' then consStr '\\' (parseStringBody r)
        else if e = '/' then consStr '/' (parseStringBody r)
        else if e = 'b' then consStr '\x08' (parseStringBody r)
        else if e = 'f' then consStr '\x0c' (parseStringBody r)
        else if e = 'n' then consStr '\n' (parseStringBody r)
        else if e = 'r' then consStr '\r' (parseStringBody r)
        else if e = 't' then consStr '\t' (parseStringBody r)
        else if e = 'u' then
          match r with
          | h1 :: h2 :: h3 :: h4 :: r2 =>
            (match parseHexDigit h1, parseHexDigit h2, parseHexDigit h3, parseHexDigit h4 with
             | some d1, some d2, some d3, some d4 =>
               let n := ((d1 * 16 + d2) * 16 + d3) * 16 + d4
               if Nat.isValidChar n then consStr (Char.ofNat n) (parseStringBody r2)
               else none
             | _, _, _, _ => none)
          | _ => none
        else none
    else if c.toNat < 32 then none
    else consStr c (parseStringBody rest)

/-- Value of a run of decimal digits. -/
def digitsToNat (l : List Char) : Nat :=
  l.foldl (fun a c => a * 10 + (c.toNat - '0'.toNat)) 0

/-- Whether a number literal would continue here with a fraction or
exponent part, which the integer-valued model rejects. -/
def numberExtends : List Char → Bool
  | [] => false
  | c :: _ => c == '.' || c == 'e' || c == 'E'

/-- Parse a JSON integer literal. -/
def parseJsonNumber (l : List Char) : Option (Int × List Char) :=
  match l with
  | '-' :: r =>
    let ds := r.takeWhile Char.isDigit
    let rest := r.dropWhile Char.isDigit
    if ds.isEmpty then none
    else if numberExtends rest then none
    else some (-(digitsToNat ds : Int), rest)
  | _ =>
    let ds := l.takeWhile Char.isDigit
    let rest := l.dropWhile Char.isDigit
    if ds.isEmpty then none
    else if numberExtends rest then none
    else some ((digitsToNat ds : Int), rest)

mutual
/-- Embedding of `JSON.parse` over fuel (the fuel is an artifact of the
embedding; `jsonParse` supplies enough for any input). Returns the
parsed value and the unconsumed rest of the input. -/
def parseJsonVal : Nat → List Char → Option (JSVal × List Char)
  | 0, _ => none
  | fuel + 1, l =>
    match l.dropWhile isJsonWs with
    | 'n' :: 'u' :: 'l' :: 'l' :: r => some (.vNull, r)
    | 't' :: 'r' :: 'u' :: 'e' :: r => some (.vBool true, r)
    | 'f' :: 'a' :: 'l' :: 's' :: 'e' :: r => some (.vBool false, r)
    | '"' :: r =>
      (match parseStringBody r with
       | some (s, r2) => some (.vStr (String.mk s), r2)
       | none => none)
    | '[' :: r =>
      (match r.dropWhile isJsonWs with
       | ']' :: r2 => some (.vArr [], r2)
       | _ =>
         match parseJsonItems fuel r with
         | some (xs, r2) => some (.vArr xs, r2)
         | none => none)
    | '\x7b' :: r =>
      (match r.dropWhile isJsonWs with
       | '\x7d' :: r2 => some (.vObj [], r2)
       | _ =>
         match parseJsonFields fuel r with
         | some (fs, r2) => some (.vObj fs, r2)
         | none => none)
    | l2 =>
      match parseJsonNumber l2 with
      | some (n, r) => some (.vNum n, r)
      | none => none

/-- Parse the elements of a non-empty JSON array, consuming the closing
bracket. -/
def parseJsonItems : Nat → List Char → Option (List JSVal × List Char)
  | 0, _ => none
  | fuel + 1, l =>
    match parseJsonVal fuel l with
    | none => none
    | some (v, r) =>
      match r.dropWhile isJsonWs with
      | ',' :: r2 =>
        (match parseJsonItems fuel r2 with
         | some (xs, r3) => some (v :: xs, r3)
         | none => none)
      | ']' :: r2 => some ([v], r2)
      | _ => none

/-- Parse the fields of a non-empty JSON object, consuming the closing
brace. -/
def parseJsonFields : Nat → List Char → Option (List (String × JSVal) × List Char)
  | 0, _ => none
  | fuel + 1, l =>
    match l.dropWhile isJsonWs with
    | '"' :: r =>
      (match parseStringBody r with
       | none => none
       | some (k, r2) =>
         match r2.dropWhile isJsonWs with
         | ':' :: r3 =>
           (match parseJsonVal fuel r3 with
            | none => none
            | some (v, r4) =>
              match r4.dropWhile isJsonWs with
              | ',' :: r5 =>
                (match parseJsonFields fuel r5 with
                 | some (fs, r6) => some ((String.mk k, v) :: fs, r6)
                 | none => none)
              | '\x7d' :: r5 => some ([(String.mk k, v)], r5)
              | _ => none)
         | _ => none)
    | _ => none
end

/-- Embedding of `JSON.parse`: parse one value and require only
whitespace after it. -/
def jsonParse (s : String) : Option JSVal :=
  match parseJsonVal (s.length + 1) s.data with
  | some (v, rest) => if (rest.dropWhile isJsonWs).isEmpty then some v else none
  | none => none

/-- Embedding of `importTemplates`: parse, require an array, validate
every record collecting all errors, then give every record a fresh id
(`freshIds i` stands for the `crypto.randomUUID()` result for the
record at position `i`) and persist the imported set as the whole new
collection. -/
def importTemplates (state : List JSVal) (jsonString : String) (freshIds : Nat → String) :
    List JSVal × Except String (List JSVal) :=
  match jsonParse jsonString with
  | none => (state, .error "Invalid JSON format")
  | some v =>
    match v with
    | .vArr ts =>
      let invalid := ts.filter (fun t => !(validateTemplate t).isValid)
      if ¬ invalid.isEmpty then
        (state, .error ("Invalid templates found:\n" ++
          String.intercalate "\n" (invalid.map invalidTemplateLine)))
      else
        let imported := ts.enum.map (fun p => jsSpread p.2 (.vObj [("id", .vStr (freshIds p.1))]))
        match saveTemplates imported with
        | .ok ts2 => (ts2, .ok imported)
        | .error e => (state, .error e)
    | _ => (state, .error "Templates must be an array")

mutual
/-- Values that are faithful images of JavaScript values serializable
without loss: no `undefined` anywhere, and duplicate-free object keys
(a JavaScript object cannot carry two bindings of one key). -/
def jsonSafe : JSVal → Bool
  | .vStr _ => true
  | .vNum _ => true
  | .vBool _ => true
  | .vNull => true
  | .vUndefined => false
  | .vArr xs => jsonSafeItems xs
  | .vObj fs => decide ((fs.map Prod.fst).Nodup) && jsonSafeFields fs

/-- jsonSafe over array elements. -/
def jsonSafeItems : List JSVal → Bool
  | [] => true
  | x :: xs => jsonSafe x && jsonSafeItems xs

/-- jsonSafe over object field values. -/
def jsonSafeFields : List (String × JSVal) → Bool
  | [] => true
  | (_, v) :: fs => jsonSafe v && jsonSafeFields fs
end

mutual
/-- Fuel sufficient for `parseJsonVal` on the rendering of a value. -/
def jsonFuelV : JSVal → Nat
  | .vArr xs => 1 + jsonFuelItems xs
  | .vObj fs => 1 + jsonFuelFields fs
  | _ => 1

/-- Fuel sufficient for `parseJsonItems`. -/
def jsonFuelItems : List JSVal → Nat
  | [] => 1
  | x :: xs => 1 + max (jsonFuelV x) (jsonFuelItems xs)

/-- Fuel sufficient for `parseJsonFields`. -/
def jsonFuelFields : List (String × JSVal) → Nat
  | [] => 1
  | (_, v) :: fs => 1 + max (jsonFuelV v) (jsonFuelFields fs)
end

/-- Constraint on the text that may follow a rendered number for the
parser to stop at the right place: the continuation starts with nothing
that could extend a number literal. Used only in round-trip statements. -/
def restOk : List Char → Bool
  | [] => true
  | c :: _ => !(c.isDigit || c == '.' || c == 'e' || c == 'E')

/-! ## Spec-side definitions

These definitions follow the specification's words rather than the
sources; theorems below compare them with the embedded code. -/

/-- Modelled from the spec: the distinct elements of a list in
first-occurrence order — scan left to right and keep every element the
first time it appears. -/
def firstOccurrences (l : List String) : List String :=
  l.foldl (fun acc k => if k ∈ acc then acc else acc ++ [k]) []

/-- Modelled from the spec: the tone segment — the trimmed tone snippet,
included only when the tone key is present in the preset table and is
not the neutral or empty case, and its trimmed snippet is non-empty. -/
def specToneSegment (tunePresets : String → Option TunePreset) (tune : String) : List String :=
  match tunePresets tune with
  | some preset =>
      if tune ≠ "" ∧ tune ≠ "neutral" ∧ jsTrim preset.snippet ≠ "" then
        [jsTrim preset.snippet]
      else []
  | none => []

/-- Modelled from the spec: the segments of the assembled prompt, in
order — trimmed non-empty prefix; the tone segment; trimmed non-empty
filled body. No segments at all when the template or its body is
missing. -/
def promptSegments (template : JSVal) (vars : List (String × JSVal)) (tune : String)
    (pfx : String) (tunePresets : String → Option TunePreset) : List String :=
  if ¬ jsTruthy template ∨ ¬ jsTruthy (getField template "body") then []
  else
    (if jsTrim pfx ≠ "" then [jsTrim pfx] else [])
    ++ specToneSegment tunePresets tune
    ++ (if jsTrim (fillTemplateVariablesJS (getField template "body") vars) ≠ "" then
          [jsTrim (fillTemplateVariablesJS (getField template "body") vars)]
        else [])

/-- A usable string field in the sense of the validator: a string, and
truthy, hence non-empty. -/
def goodStringField (v : JSVal) : Bool :=
  jsTruthy v && jsTypeof v == "string"

/-- Modelled from the spec: one variable record is structurally valid
when it is an object with a (non-empty) string key, its type, if
present, is text or select, and, when its type is select, its options
are an array of strings. -/
def specValidVariable (v : JSVal) : Bool :=
  jsTruthy v && jsTypeof v == "object" &&
  goodStringField (getField v "key") &&
  (!(jsTruthy (getField v "type")) ||
    jsStrictEq (getField v "type") (.vStr "text") ||
    jsStrictEq (getField v "type") (.vStr "select")) &&
  (!(jsStrictEq (getField v "type") (.vStr "select")) ||
    (match getField v "options" with
     | .vArr opts => opts.all (fun o => jsTypeof o == "string")
     | _ => false))

/-- Modelled from the spec: a template record is structurally valid
when it is an object with (non-empty) string id, name and body, an
array of variables, and every variable is structurally valid. -/
def specValidTemplate (t : JSVal) : Bool :=
  jsTruthy t && jsTypeof t == "object" &&
  goodStringField (getField t "id") &&
  goodStringField (getField t "name") &&
  goodStringField (getField t "body") &&
  (match getField t "variables" with
   | .vArr vs => vs.all specValidVariable
   | _ => false)

/-! ## Helper lemmas: character classes, dropWhile, trim -/

theorem isKeyChar_not_ws {c : Char} (h : isKeyChar c = true) : isJsWhitespace c = false := by
  rw [Bool.eq_false_iff]
  intro hw
  simp only [isKeyChar, isWordChar, isJsWhitespace, Bool.or_eq_true, Bool.and_eq_true,
    beq_iff_eq, decide_eq_true_eq] at h hw
  omega

theorem isKeyChar_not_brace {c : Char} (h : isKeyChar c = true) :
    (c == '\x7b' || c == '\x7d') = false := by
  simp only [isKeyChar, isWordChar, Bool.or_eq_true, Bool.and_eq_true,
    beq_iff_eq, decide_eq_true_eq] at h
  have h1 : ('\x7b' : Char).toNat = 0x7b := rfl
  have h2 : ('\x7d' : Char).toNat = 0x7d := rfl
  simp only [Bool.or_eq_false_iff, beq_eq_false_iff_ne, ne_eq]
  constructor <;> rintro rfl <;> omega

theorem isJsWhitespace_not_brace {c : Char} (h : isJsWhitespace c = true) :
    (c == '\x7b' || c == '\x7d') = false := by
  simp only [isJsWhitespace, Bool.or_eq_true, Bool.and_eq_true,
    beq_iff_eq, decide_eq_true_eq] at h
  have h1 : ('\x7b' : Char).toNat = 0x7b := rfl
  have h2 : ('\x7d' : Char).toNat = 0x7d := rfl
  simp only [Bool.or_eq_false_iff, beq_eq_false_iff_ne, ne_eq]
  constructor <;> rintro rfl <;> omega

theorem dropWhile_append_all {p : Char → Bool} :
    ∀ (xs ys : List Char), (∀ a ∈ xs, p a = true) →
      (xs ++ ys).dropWhile p = ys.dropWhile p := by
  intro xs ys h
  induction xs with
  | nil => simp
  | cons a xs ih =>
    simp only [List.cons_append, List.dropWhile_cons, h a (by simp)]
    exact ih (fun b hb => h b (by simp [hb]))

theorem drop_length_takeWhile {p : Char → Bool} :
    ∀ (l : List Char), l.drop (l.takeWhile p).length = l.dropWhile p := by
  intro l
  induction l with
  | nil => simp
  | cons a l ih =>
    by_cases h : p a
    · simp [List.takeWhile_cons, List.dropWhile_cons, h, ih]
    · simp [List.takeWhile_cons, List.dropWhile_cons, h]

theorem head_dropWhile_false {p : Char → Bool} :
    ∀ (l : List Char) (c : Char) (cs : List Char), l.dropWhile p = c :: cs → p c = false := by
  intro l
  induction l with
  | nil => intro c cs h; simp at h
  | cons a l ih =>
    intro c cs h
    rw [List.dropWhile_cons] at h
    by_cases hpa : p a = true
    · rw [if_pos hpa] at h
      exact ih c cs h
    · rw [if_neg hpa] at h
      injection h with h1 _
      subst h1
      simpa using hpa

theorem dropWhile_eq_self_head {p : Char → Bool} (l : List Char)
    (h : ∀ c cs, l = c :: cs → p c = false) : l.dropWhile p = l := by
  cases l with
  | nil => simp
  | cons c cs => simp [List.dropWhile_cons, h c cs rfl]

theorem jsTrimChars_sandwich {w1 w2 key : List Char}
    (hw1 : ∀ a ∈ w1, isJsWhitespace a = true) (hw2 : ∀ a ∈ w2, isJsWhitespace a = true)
    (hkey : ∀ a ∈ key, isKeyChar a = true) (hne : key ≠ []) :
    jsTrimChars (w1 ++ key ++ w2) = key := by
  unfold jsTrimChars
  obtain ⟨k0, key2, rfl⟩ : ∃ k0 key2, key = k0 :: key2 := by
    cases key with
    | nil => exact absurd rfl hne
    | cons a b => exact ⟨a, b, rfl⟩
  have hstep1 : ((w1 ++ (k0 :: key2) ++ w2).dropWhile isJsWhitespace) = (k0 :: key2) ++ w2 := by
    rw [List.append_assoc]
    rw [dropWhile_append_all _ _ hw1]
    exact dropWhile_eq_self_head _ (by
      rintro c cs hc
      have hck : k0 = c := by simpa using congrArg List.head? hc
      subst hck
      exact isKeyChar_not_ws (hkey k0 (by simp)))
  rw [hstep1]
  rw [List.reverse_append]
  rw [dropWhile_append_all _ _ (fun a ha => hw2 a (List.mem_reverse.mp ha))]
  have hrev : ((k0 :: key2).reverse.dropWhile isJsWhitespace) = (k0 :: key2).reverse := by
    apply dropWhile_eq_self_head
    rintro c cs hc
    have hmem : c ∈ (k0 :: key2).reverse := by rw [hc]; simp
    rw [List.mem_reverse] at hmem
    exact isKeyChar_not_ws (hkey c hmem)
  rw [hrev, List.reverse_reverse]

theorem jsTrimChars_idem (l : List Char) : jsTrimChars (jsTrimChars l) = jsTrimChars l := by
  set A := l.dropWhile isJsWhitespace with hA
  set R := A.reverse.dropWhile isJsWhitespace with hR
  have htrim : jsTrimChars l = R.reverse := rfl
  rw [htrim]
  unfold jsTrimChars
  have hstep1 : R.reverse.dropWhile isJsWhitespace = R.reverse := by
    apply dropWhile_eq_self_head
    rintro c cs hc
    have hsuf : R <:+ A.reverse := by rw [hR]; exact List.dropWhile_suffix _
    obtain ⟨s, hs⟩ := hsuf
    have hA2 : A = R.reverse ++ s.reverse := by
      have h2 := congrArg List.reverse hs
      simpa [List.reverse_append] using h2.symm
    rw [hc] at hA2
    exact head_dropWhile_false l c _ (by rw [← hA]; rw [hA2]; rfl)
  rw [hstep1, List.reverse_reverse]
  have hstep2 : R.dropWhile isJsWhitespace = R := by
    apply dropWhile_eq_self_head
    rintro c cs hc
    exact head_dropWhile_false A.reverse c cs (by rw [← hR]; exact hc)
  rw [hstep2]

/-! ## Helper lemmas: tokenizer and set deduplication -/

theorem tokenizeAux_irrel :
    ∀ (f1 : Nat) (f2 : Nat) (l : List Char), l.length ≤ f1 → l.length ≤ f2 →
      tokenizeAux f1 l = tokenizeAux f2 l := by
  intro f1
  induction f1 with
  | zero =>
    intro f2 l h1 _
    cases l with
    | nil => cases f2 <;> rfl
    | cons c cs => simp at h1
  | succ f1 ih =>
    intro f2 l h1 h2
    cases l with
    | nil => cases f2 <;> rfl
    | cons c cs =>
      cases f2 with
      | zero => simp at h2
      | succ f2 =>
        cases hph : placeholderAt c cs with
        | none =>
          simp only [tokenizeAux, hph, List.length_cons] at h1 h2 ⊢
          rw [ih f2 cs (by omega) (by omega)]
        | some kn =>
          obtain ⟨key, n⟩ := kn
          simp only [tokenizeAux, hph, List.length_cons] at h1 h2 ⊢
          have hdl : (cs.drop n).length ≤ cs.length := by
            simp [List.length_drop]
          rw [ih f2 (cs.drop n) (by omega) (by omega)]

theorem tokenizeChars_nil : tokenizeChars [] = [] := rfl

theorem tokenizeChars_cons (c : Char) (cs : List Char) :
    tokenizeChars (c :: cs) =
      match placeholderAt c cs with
      | some (key, n) =>
          TemplateToken.ph (String.mk key) (c :: cs.take n) :: tokenizeChars (cs.drop n)
      | none => TemplateToken.lit c :: tokenizeChars cs := by
  show tokenizeAux (cs.length + 1) (c :: cs) = _
  cases hph : placeholderAt c cs with
  | none =>
    simp only [tokenizeAux, hph]
    rfl
  | some kn =>
    obtain ⟨key, n⟩ := kn
    simp only [tokenizeAux, hph]
    rw [tokenizeAux_irrel cs.length (cs.drop n).length (cs.drop n) (by simp [List.length_drop]) le_rfl]
    rfl

theorem tokenizeChars_source : ∀ (l : List Char),
    ((tokenizeChars l).map tokenSource).flatten = l := by
  suffices H : ∀ (n : Nat) (l : List Char), l.length ≤ n →
      ((tokenizeChars l).map tokenSource).flatten = l by
    exact fun l => H l.length l le_rfl
  intro n
  induction n with
  | zero =>
    intro l h
    have hl : l = [] := List.length_eq_zero.mp (Nat.le_zero.mp h)
    subst hl
    rfl
  | succ n ih =>
    intro l h
    cases l with
    | nil => rfl
    | cons c cs =>
      rw [tokenizeChars_cons]
      cases hph : placeholderAt c cs with
      | none =>
        simp only [List.map_cons, List.flatten_cons, tokenSource]
        rw [ih cs (by simp at h; omega)]
        rfl
      | some kn =>
        obtain ⟨key, m⟩ := kn
        simp only [List.map_cons, List.flatten_cons, tokenSource]
        rw [ih (cs.drop m) (by simp only [List.length_drop]; simp at h; omega)]
        simp [List.take_append_drop]

theorem jsSetDedupAux_irrel :
    ∀ (f1 : Nat) (f2 : Nat) (l : List String), l.length ≤ f1 → l.length ≤ f2 →
      jsSetDedupAux f1 l = jsSetDedupAux f2 l := by
  intro f1
  induction f1 with
  | zero =>
    intro f2 l h1 _
    cases l with
    | nil => cases f2 <;> rfl
    | cons c cs => simp at h1
  | succ f1 ih =>
    intro f2 l h1 h2
    cases l with
    | nil => cases f2 <;> rfl
    | cons x xs =>
      cases f2 with
      | zero => simp at h2
      | succ f2 =>
        simp only [jsSetDedupAux, List.length_cons] at h1 h2 ⊢
        rw [ih f2 (xs.filter (fun y => y != x))
          (le_trans (List.length_filter_le _ _) (by omega))
          (le_trans (List.length_filter_le _ _) (by omega))]

theorem jsSetDedup_cons (x : String) (xs : List String) :
    jsSetDedup (x :: xs) = x :: jsSetDedup (xs.filter (fun y => y != x)) := by
  show jsSetDedupAux (xs.length + 1) (x :: xs) = _
  simp only [jsSetDedupAux]
  rw [jsSetDedupAux_irrel xs.length (xs.filter (fun y => y != x)).length
    (xs.filter (fun y => y != x)) (List.length_filter_le _ _) le_rfl]
  rfl

theorem jsSetDedup_mem (a : String) : ∀ (l : List String), a ∈ jsSetDedup l ↔ a ∈ l := by
  suffices H : ∀ (n : Nat) (l : List String), l.length ≤ n → (a ∈ jsSetDedup l ↔ a ∈ l) by
    exact fun l => H l.length l le_rfl
  intro n
  induction n with
  | zero =>
    intro l h
    have hl : l = [] := List.length_eq_zero.mp (Nat.le_zero.mp h)
    subst hl
    rfl
  | succ n ih =>
    intro l h
    cases l with
    | nil => rfl
    | cons x xs =>
      rw [jsSetDedup_cons]
      simp only [List.mem_cons,
        ih (xs.filter (fun y => y != x)) (le_trans (List.length_filter_le _ _) (by simp at h; omega)),
        List.mem_filter, bne_iff_ne, ne_eq]
      by_cases hax : a = x <;> simp [hax]

theorem jsSetDedup_nodup : ∀ (l : List String), (jsSetDedup l).Nodup := by
  suffices H : ∀ (n : Nat) (l : List String), l.length ≤ n → (jsSetDedup l).Nodup by
    exact fun l => H l.length l le_rfl
  intro n
  induction n with
  | zero =>
    intro l h
    have hl : l = [] := List.length_eq_zero.mp (Nat.le_zero.mp h)
    subst hl
    simp [jsSetDedup, jsSetDedupAux]
  | succ n ih =>
    intro l h
    cases l with
    | nil => simp [jsSetDedup, jsSetDedupAux]
    | cons x xs =>
      rw [jsSetDedup_cons]
      refine List.nodup_cons.mpr ⟨?_, ih _ (le_trans (List.length_filter_le _ _) (by simp at h; omega))⟩
      intro hmem
      have hmem2 := (jsSetDedup_mem x _).mp hmem
      simp [List.mem_filter] at hmem2

theorem foldl_firstOccur (l acc : List String) :
    l.foldl (fun acc k => if k ∈ acc then acc else acc ++ [k]) acc =
      acc ++ jsSetDedup (l.filter (fun y => decide (y ∉ acc))) := by
  induction l generalizing acc with
  | nil => simp [jsSetDedup, jsSetDedupAux]
  | cons x xs ih =>
    simp only [List.foldl_cons, List.filter_cons]
    by_cases hx : x ∈ acc
    · rw [if_pos hx]
      simp only [hx, not_true_eq_false, decide_False, Bool.false_eq_true, if_false]
      exact ih acc
    · rw [if_neg hx]
      simp only [hx, not_false_eq_true, decide_True, if_true]
      rw [ih (acc ++ [x]), jsSetDedup_cons]
      simp only [List.append_assoc, List.cons_append, List.nil_append]
      congr 2
      rw [List.filter_filter]
      apply congrArg
      apply List.filter_congr
      intro a _
      by_cases h1 : a ∈ acc <;> by_cases h2 : a = x <;>
        simp [h1, h2, List.mem_append]

theorem firstOccurrences_eq (l : List String) : firstOccurrences l = jsSetDedup l := by
  have h := foldl_firstOccur l []
  simpa [firstOccurrences] using h

/-! ## Helper lemmas: placeholder match shape -/

theorem placeholderAt_shape {c : Char} {cs key : List Char} {n : Nat}
    (h : placeholderAt c cs = some (key, n)) :
    ∃ w1 w2,
      c = '\x7b' ∧
      c :: cs.take n = '\x7b' :: '\x7b' :: (w1 ++ key ++ w2 ++ ['\x7d', '\x7d']) ∧
      (∀ a ∈ w1, isJsWhitespace a = true) ∧ (∀ a ∈ w2, isJsWhitespace a = true) ∧
      key ≠ [] ∧ (∀ a ∈ key, isKeyChar a = true) := by
  unfold placeholderAt at h
  split at h
  case isFalse => exact absurd h (by simp)
  case isTrue hc =>
  split at h
  case h_1 => exact absurd h (by simp)
  case h_2 c2 t =>
  split at h
  case isFalse => exact absurd h (by simp)
  case isTrue hc2 =>
  simp only at h
  split at h
  case isTrue => exact absurd h (by simp)
  case isFalse hk =>
  split at h
  case h_2 => exact absurd h (by simp)
  case h_1 d1 d2 rest hdrop =>
  split at h
  case isFalse => exact absurd h (by simp)
  case isTrue hd =>
  obtain ⟨hd1, hd2⟩ := hd
  injection h with h1
  injection h1 with hkey hn
  subst hc hc2 hd1 hd2
  subst hkey
  set w1c := t.takeWhile isJsWhitespace with hw1c
  set u := t.drop w1c.length with hu
  set keyc := u.takeWhile isKeyChar with hkeyc
  set u2 := t.drop (w1c.length + keyc.length) with hu2
  set w2c := u2.takeWhile isJsWhitespace with hw2c
  refine ⟨w1c, w2c, rfl, ?_,
    fun a ha => List.mem_takeWhile_imp ha, fun a ha => List.mem_takeWhile_imp ha,
    by simpa using hk, fun a ha => List.mem_takeWhile_imp ha⟩
  subst hn
  have e1 : w1c ++ u = t := by
    rw [hu, drop_length_takeWhile]
    exact List.takeWhile_append_dropWhile _ _
  have e2 : keyc ++ u.drop keyc.length = u := by
    rw [hkeyc, drop_length_takeWhile]
    exact List.takeWhile_append_dropWhile _ _
  have e2' : u.drop keyc.length = u2 := by
    rw [hu, List.drop_drop]
  have e3 : w2c ++ u2.drop w2c.length = u2 := by
    rw [hw2c, drop_length_takeWhile]
    exact List.takeWhile_append_dropWhile _ _
  have e3' : u2.drop w2c.length = '\x7d' :: '\x7d' :: rest := by
    rw [hu2, List.drop_drop]
    exact hdrop
  have et : t = w1c ++ (keyc ++ (w2c ++ ('\x7d' :: '\x7d' :: rest))) := by
    rw [← e1]
    congr 1
    rw [← e2]
    congr 1
    rw [e2', ← e3, e3']
  have hstep : (('\x7b' :: t).take (1 + w1c.length + keyc.length + w2c.length + 2)) =
      '\x7b' :: (t.take (w1c.length + keyc.length + w2c.length + 2)) := by
    have harith : 1 + w1c.length + keyc.length + w2c.length + 2 =
        (w1c.length + keyc.length + w2c.length + 2) + 1 := by omega
    rw [harith]
    simp [List.take_succ_cons]
  rw [hstep, et]
  have harith2 : w1c.length + keyc.length + w2c.length + 2 =
      w1c.length + (keyc.length + (w2c.length + 2)) := by omega
  rw [harith2, List.take_append, List.take_append, List.take_append]
  simp

theorem lookupField_any : ∀ (fields : List (String × JSVal)) (key : String) (v : JSVal),
    lookupField fields key = some v → fields.any (fun p => p.1 == key) = true := by
  intro fields key v
  induction fields with
  | nil => intro h; simp [lookupField] at h
  | cons f fs ih =>
    intro h
    cases hf : (f.1 == key) with
    | true => simp [List.any_cons, hf]
    | false =>
      simp only [lookupField, List.find?_cons, hf, cond_false] at h
      simp only [List.any_cons, hf, Bool.false_or]
      exact ih (by simpa [lookupField] using h)

theorem substToken_empty (t : TemplateToken) : substToken [] t = tokenSource t := by
  cases t <;> rfl

theorem tokenizeChars_ph_shape : ∀ (l : List Char) (key : String) (src : List Char),
    TemplateToken.ph key src ∈ tokenizeChars l →
    ∃ w1 w2,
      src = '\x7b' :: '\x7b' :: (w1 ++ key.data ++ w2 ++ ['\x7d', '\x7d']) ∧
      (∀ a ∈ w1, isJsWhitespace a = true) ∧ (∀ a ∈ w2, isJsWhitespace a = true) ∧
      key.data ≠ [] ∧ (∀ a ∈ key.data, isKeyChar a = true) := by
  suffices H : ∀ (n : Nat) (l : List Char), l.length ≤ n → ∀ (key : String) (src : List Char),
      TemplateToken.ph key src ∈ tokenizeChars l →
      ∃ w1 w2,
        src = '\x7b' :: '\x7b' :: (w1 ++ key.data ++ w2 ++ ['\x7d', '\x7d']) ∧
        (∀ a ∈ w1, isJsWhitespace a = true) ∧ (∀ a ∈ w2, isJsWhitespace a = true) ∧
        key.data ≠ [] ∧ (∀ a ∈ key.data, isKeyChar a = true) by
    exact fun l => H l.length l le_rfl
  intro n
  induction n with
  | zero =>
    intro l h key src hmem
    have hl : l = [] := List.length_eq_zero.mp (Nat.le_zero.mp h)
    subst hl
    simp [tokenizeChars, tokenizeAux] at hmem
  | succ n ih =>
    intro l h key src hmem
    cases l with
    | nil => simp [tokenizeChars, tokenizeAux] at hmem
    | cons c cs =>
      rw [tokenizeChars_cons] at hmem
      cases hph : placeholderAt c cs with
      | none =>
        rw [hph] at hmem
        simp only [List.mem_cons] at hmem
        rcases hmem with hhd | htl
        · exact absurd hhd (by simp)
        · exact ih cs (by simp at h; omega) key src htl
      | some kn =>
        obtain ⟨keyc, m⟩ := kn
        rw [hph] at hmem
        simp only [List.mem_cons] at hmem
        rcases hmem with hhd | htl
        · injection hhd with hkeyeq hsrceq
          obtain ⟨w1, w2, hc, htake, hw1, hw2, hne, hkc⟩ := placeholderAt_shape hph
          refine ⟨w1, w2, ?_, hw1, hw2, ?_, ?_⟩
          · rw [hsrceq, htake]
            subst hkeyeq
            rfl
          · subst hkeyeq
            simpa using hne
          · subst hkeyeq
            simpa using hkc
        · exact ih (cs.drop m) (by simp only [List.length_drop]; simp at h; omega) key src htl

theorem stripTrim_ph {key : String} {src : List Char}
    (h : ∃ w1 w2,
      src = '\x7b' :: '\x7b' :: (w1 ++ key.data ++ w2 ++ ['\x7d', '\x7d']) ∧
      (∀ a ∈ w1, isJsWhitespace a = true) ∧ (∀ a ∈ w2, isJsWhitespace a = true) ∧
      key.data ≠ [] ∧ (∀ a ∈ key.data, isKeyChar a = true)) :
    jsTrim (String.mk (src.filter (fun c => !(c == '\x7b' || c == '\x7d')))) = key := by
  obtain ⟨w1, w2, hsrc, hw1, hw2, hne, hkc⟩ := h
  subst hsrc
  have hbrace : ∀ c : Char, (c == '\x7b' || c == '\x7d') = true → (!(c == '\x7b' || c == '\x7d')) = false := by
    intro c hc
    simp [hc]
  have hfil : ('\x7b' :: '\x7b' :: (w1 ++ key.data ++ w2 ++ ['\x7d', '\x7d'])).filter
      (fun c => !(c == '\x7b' || c == '\x7d')) = w1 ++ key.data ++ w2 := by
    simp only [List.filter_cons]
    rw [if_neg (by simp), if_neg (by simp)]
    rw [List.filter_append, List.filter_append, List.filter_append]
    rw [List.filter_eq_self.mpr (fun a ha => by simp [isJsWhitespace_not_brace (hw1 a ha)])]
    rw [List.filter_eq_self.mpr (fun a ha => by simp [isKeyChar_not_brace (hkc a ha)])]
    rw [List.filter_eq_self.mpr (fun a ha => by simp [isJsWhitespace_not_brace (hw2 a ha)])]
    have : (['\x7d', '\x7d'] : List Char).filter (fun c => !(c == '\x7b' || c == '\x7d')) = [] := rfl
    rw [this, List.append_nil]
  rw [hfil]
  show String.mk (jsTrimChars (w1 ++ key.data ++ w2)) = key
  rw [jsTrimChars_sandwich hw1 hw2 hkc hne]

/-- C1: `fillTemplateVariables` replaces each placeholder occurrence whose key
is an own property of the value map with the string form of the mapped value,
leaves every placeholder whose key is absent as its literal original text, and
keeps all non-placeholder text unchanged. Formally: the output is exactly the
concatenation of the per-token callback results over the regex decomposition of
the body; the decomposition's source texts concatenate back to the body, so
nothing outside the matches is touched; the callback keeps the original text of
a placeholder with an absent key and produces the stringified value for a
present key, and is the identity on the single characters between matches; in
particular, with an empty value map the output is the body itself. -/
theorem C1_fillTemplateVariables_placeholders (body : String) (vars : List (String × JSVal)) :
    fillTemplateVariables body vars =
      String.mk (((tokenizeChars body.data).map (substToken vars)).flatten) ∧
    String.mk (((tokenizeChars body.data).map tokenSource).flatten) = body ∧
    (∀ key src, TemplateToken.ph key src ∈ tokenizeChars body.data →
      (vars.any (fun p => p.1 == key) = false → substToken vars (.ph key src) = src) ∧
      (∀ v, lookupField vars key = some v →
        substToken vars (.ph key src) = (jsToString v).data)) ∧
    (∀ c, substToken vars (TemplateToken.lit c) = [c]) ∧
    fillTemplateVariables body [] = body := by
  have hsource : String.mk (((tokenizeChars body.data).map tokenSource).flatten) = body := by
    rw [tokenizeChars_source]
  refine ⟨?_, hsource, ?_, fun c => rfl, ?_⟩
  · unfold fillTemplateVariables
    by_cases hb : body = ""
    · subst hb
      rfl
    · rw [if_neg hb]
  · intro key src _
    constructor
    · intro habs
      simp [substToken, habs]
    · intro v hv
      simp [substToken, lookupField_any vars key v hv, hv]
  · unfold fillTemplateVariables
    by_cases hb : body = ""
    · subst hb
      rfl
    · rw [if_neg hb]
      rw [List.map_eq_map_iff.mpr (fun t _ => substToken_empty t)]
      exact hsource

/-- Witness for C1: the unit-test examples, one key present and one key
absent, and the empty value map. -/
theorem C1_witness :
    fillTemplateVariables "Hello \x7b\x7bname\x7d\x7d, welcome to \x7b\x7bplatform\x7d\x7d!"
        [("name", JSVal.vStr "John")] = "Hello John, welcome to \x7b\x7bplatform\x7d\x7d!" ∧
    fillTemplateVariables "Hello \x7b\x7bname\x7d\x7d!" [] = "Hello \x7b\x7bname\x7d\x7d!" := by
  constructor
  · rw [(C1_fillTemplateVariables_placeholders
      "Hello \x7b\x7bname\x7d\x7d, welcome to \x7b\x7bplatform\x7d\x7d!"
      [("name", JSVal.vStr "John")]).1]
    rfl
  · exact (C1_fillTemplateVariables_placeholders "Hello \x7b\x7bname\x7d\x7d!" []).2.2.2.2

theorem mapStrip_eq_filterMapKey : ∀ (toks : List TemplateToken),
    (∀ (key : String) (src : List Char), TemplateToken.ph key src ∈ toks →
      jsTrim (String.mk (src.filter (fun c => !(c == '\x7b' || c == '\x7d')))) = key) →
    ((toks.filterMap (fun t => match t with | .ph _ src => some src | .lit _ => none)).map
        (fun m => jsTrim (String.mk (m.filter (fun c => !(c == '\x7b' || c == '\x7d')))))) =
      toks.filterMap tokenKey := by
  intro toks
  induction toks with
  | nil => intro _; rfl
  | cons t ts ih =>
    intro h
    cases t with
    | lit c =>
      simp only [List.filterMap_cons]
      exact ih (fun key src hm => h key src (by simp [hm]))
    | ph key src =>
      simp only [List.filterMap_cons, tokenKey, List.map_cons]
      rw [h key src (by simp)]
      rw [ih (fun key2 src2 hm => h key2 src2 (by simp [hm]))]

/-- C3: `extractVariableKeys` returns the set of distinct placeholder keys of
the body — the keys captured by the placeholder regex scan — each key exactly
once and in first-occurrence order regardless of repetition, and the empty
body yields an empty sequence. -/
theorem C3_extractVariableKeys_distinct_first (body : String) :
    extractVariableKeys body =
      firstOccurrences ((tokenizeChars body.data).filterMap tokenKey) ∧
    (extractVariableKeys body).Nodup ∧
    (body = "" → extractVariableKeys body = []) := by
  have hmain : extractVariableKeys body =
      firstOccurrences ((tokenizeChars body.data).filterMap tokenKey) := by
    rw [firstOccurrences_eq]
    unfold extractVariableKeys
    by_cases hb : body = ""
    · subst hb
      rfl
    · rw [if_neg hb]
      congr 1
      exact mapStrip_eq_filterMapKey _
        (fun key src hm => stripTrim_ph (tokenizeChars_ph_shape body.data key src hm))
  refine ⟨hmain, ?_, ?_⟩
  · rw [hmain, firstOccurrences_eq]
    exact jsSetDedup_nodup _
  · intro hb
    subst hb
    rfl

/-- Witness for C3: the unit-test example with a repeated key, and the empty
body. -/
theorem C3_witness :
    extractVariableKeys "Hello \x7b\x7bname\x7d\x7d, \x7b\x7bplatform\x7d\x7d! How is \x7b\x7bname\x7d\x7d?" =
      ["name", "platform"] ∧
    extractVariableKeys "" = [] := by
  constructor
  · rw [(C3_extractVariableKeys_distinct_first
      "Hello \x7b\x7bname\x7d\x7d, \x7b\x7bplatform\x7d\x7d! How is \x7b\x7bname\x7d\x7d?").1]
    rfl
  · exact (C3_extractVariableKeys_distinct_first "").2.2 rfl

/-! ## Helper lemmas: trimming, and the C2 segment correspondence -/
theorem jsTrim_ne_empty {s : String} (h : jsTrim s ≠ "") : s ≠ "" :=
  fun he => h (by rw [he]; rfl)

theorem jsTrim_idem (s : String) : jsTrim (jsTrim s) = jsTrim s := by
  show String.mk (jsTrimChars (String.mk (jsTrimChars s.data)).data) = _
  show String.mk (jsTrimChars (jsTrimChars s.data)) = _
  rw [jsTrimChars_idem]
  rfl

theorem mem_ite_singleton {c : Prop} [Decidable c] {s x : String}
    (h : s ∈ (if c then [x] else [])) : c ∧ s = x := by
  by_cases hc : c
  · rw [if_pos hc] at h
    simp at h
    exact ⟨hc, h⟩
  · rw [if_neg hc] at h
    simp at h

theorem tonePart_eq_specToneSegment (tunePresets : String → Option TunePreset) (tune : String) :
    tonePart tunePresets tune = specToneSegment tunePresets tune := by
  unfold tonePart specToneSegment
  by_cases h1 : tune ≠ "" ∧ tune ≠ "neutral"
  · rw [if_pos h1]
    cases hp : tunePresets tune with
    | none => rfl
    | some p =>
      by_cases h2 : jsTrim p.snippet = ""
      · simp [h2]
      · simp [h1.1, h1.2, h2, jsTrim_ne_empty h2]
  · rw [if_neg h1]
    cases hp : tunePresets tune with
    | none => rfl
    | some p =>
      have hcon : ¬ (tune ≠ "" ∧ tune ≠ "neutral" ∧ jsTrim p.snippet ≠ "") := by tauto
      simp [hcon]

theorem mem_specToneSegment {tunePresets : String → Option TunePreset} {tune : String}
    {s : String} (h : s ∈ specToneSegment tunePresets tune) :
    ∃ p, tunePresets tune = some p ∧ jsTrim p.snippet ≠ "" ∧ s = jsTrim p.snippet := by
  unfold specToneSegment at h
  cases hp : tunePresets tune with
  | none => rw [hp] at h; simp at h
  | some p =>
    rw [hp] at h
    obtain ⟨hc, rfl⟩ := mem_ite_singleton h
    exact ⟨p, rfl, hc.2.2, rfl⟩

/-- C2: `buildPromptText` assembles at most three segments in the fixed order
prefix, tone snippet, filled body — each trimmed and non-empty, the tone
snippet only when the tone key is present in the preset table and is not the
neutral or empty case — joined with a blank line between the segments that are
present; a segment that is empty after trimming is omitted entirely, so the
result never carries leading or trailing blank-line separators, and the result
is the empty string whenever the template or its body is missing (falsy). -/
theorem C2_buildPromptText_segments (template : JSVal) (vars : List (String × JSVal))
    (tune pfx : String) (tunePresets : String → Option TunePreset) :
    buildPromptText template vars tune pfx tunePresets =
      String.intercalate "\n\n" (promptSegments template vars tune pfx tunePresets) ∧
    (∀ s ∈ promptSegments template vars tune pfx tunePresets, s ≠ "" ∧ jsTrim s = s) ∧
    ((¬ jsTruthy template = true ∨ ¬ jsTruthy (getField template "body") = true) →
      buildPromptText template vars tune pfx tunePresets = "") := by
  have hseg : ∀ s ∈ promptSegments template vars tune pfx tunePresets, s ≠ "" ∧ jsTrim s = s := by
    intro s hs
    unfold promptSegments at hs
    by_cases hg : ¬ jsTruthy template = true ∨ ¬ jsTruthy (getField template "body") = true
    · rw [if_pos hg] at hs
      simp at hs
    · rw [if_neg hg] at hs
      simp only [List.mem_append] at hs
      rcases hs with (hs | hs) | hs
      · obtain ⟨h1, rfl⟩ := mem_ite_singleton hs
        exact ⟨h1, jsTrim_idem pfx⟩
      · obtain ⟨p, hp, hsn, rfl⟩ := mem_specToneSegment hs
        exact ⟨hsn, jsTrim_idem _⟩
      · obtain ⟨h3, rfl⟩ := mem_ite_singleton hs
        exact ⟨h3, jsTrim_idem _⟩
  refine ⟨?_, hseg, ?_⟩
  · by_cases hg : ¬ jsTruthy template = true ∨ ¬ jsTruthy (getField template "body") = true
    · simp only [buildPromptText, promptSegments, if_pos hg]
      rfl
    · simp only [buildPromptText, promptSegments, if_neg hg]
      have hA : (if pfx ≠ "" ∧ jsTrim pfx ≠ "" then [jsTrim pfx] else []) =
          (if jsTrim pfx ≠ "" then [jsTrim pfx] else []) := by
        by_cases h1 : jsTrim pfx = ""
        · simp [h1]
        · simp [h1, jsTrim_ne_empty h1]
      rw [hA, tonePart_eq_specToneSegment]
      rw [List.filter_eq_self.mpr ?hne]
      case hne =>
        intro s hs
        rw [bne_iff_ne, ne_eq]
        simp only [List.mem_append] at hs
        rcases hs with (hs | hs) | hs
        · exact (mem_ite_singleton hs).2 ▸ (mem_ite_singleton hs).1
        · obtain ⟨p, hp, hsn, rfl⟩ := mem_specToneSegment hs
          exact hsn
        · exact (mem_ite_singleton hs).2 ▸ (mem_ite_singleton hs).1
  · intro hcon
    simp only [buildPromptText, if_pos hcon]

/-- Witness for C2: the unit-test examples — all three segments present, and
the neutral-tone case — plus a missing template. -/
theorem C2_witness :
    buildPromptText (.vObj [("body", .vStr "Create content about \x7b\x7btopic\x7d\x7d")])
        [("topic", JSVal.vStr "AI")] "concise" "System: You are a helpful assistant."
        (fun k => if k = "concise" then some ⟨"Concise", "Short, direct sentences", "Be brief and direct."⟩
          else if k = "neutral" then some ⟨"Neutral", "Standard, balanced response", ""⟩ else none) =
      "System: You are a helpful assistant.\n\nBe brief and direct.\n\nCreate content about AI" ∧
    buildPromptText (.vObj [("body", .vStr "Create content about \x7b\x7btopic\x7d\x7d")])
        [("topic", JSVal.vStr "AI")] "neutral" ""
        (fun k => if k = "neutral" then some ⟨"Neutral", "Standard, balanced response", ""⟩ else none) =
      "Create content about AI" ∧
    buildPromptText JSVal.vNull [] "neutral" "" (fun _ => none) = "" := by
  refine ⟨?_, ?_, ?_⟩
  · rw [(C2_buildPromptText_segments (.vObj [("body", .vStr "Create content about \x7b\x7btopic\x7d\x7d")])
      [("topic", JSVal.vStr "AI")] "concise" "System: You are a helpful assistant."
      (fun k => if k = "concise" then some ⟨"Concise", "Short, direct sentences", "Be brief and direct."⟩
        else if k = "neutral" then some ⟨"Neutral", "Standard, balanced response", ""⟩ else none)).1]
    rfl
  · rw [(C2_buildPromptText_segments (.vObj [("body", .vStr "Create content about \x7b\x7btopic\x7d\x7d")])
      [("topic", JSVal.vStr "AI")] "neutral" ""
      (fun k => if k = "neutral" then some ⟨"Neutral", "Standard, balanced response", ""⟩ else none)).1]
    rfl
  · exact (C2_buildPromptText_segments JSVal.vNull [] "neutral" "" (fun _ => none)).2.2
      (Or.inl (by decide))
theorem goodStringField_false_iff (v : JSVal) :
    goodStringField v = false ↔ (¬ jsTruthy v = true ∨ jsTypeof v ≠ "string") := by
  unfold goodStringField
  cases h1 : jsTruthy v <;> by_cases h2 : jsTypeof v = "string" <;> simp [h1, h2]

theorem variableErrors_eq_nil_iff (i : Nat) (v : JSVal) :
    (variableErrors i v = [] ↔ specValidVariable v = true) := by
  unfold variableErrors specValidVariable
  by_cases h1 : ¬ jsTruthy v = true ∨ jsTypeof v ≠ "object"
  · rw [if_pos h1]
    rcases h1 with h1 | h1 <;> simp [h1]
  · rw [if_neg h1]
    push_neg at h1
    obtain ⟨h1a, h1b⟩ := h1
    by_cases h2 : ¬ jsTruthy (getField v "key") = true ∨ jsTypeof (getField v "key") ≠ "string"
    · rw [if_pos h2]
      have : goodStringField (getField v "key") = false := (goodStringField_false_iff _).mpr h2
      simp [h1a, h1b, this]
    · rw [if_neg h2]
      push_neg at h2
      obtain ⟨h2a, h2b⟩ := h2
      have hgood : goodStringField (getField v "key") = true := by
        simp [goodStringField, h2a, h2b]
      by_cases h3 : jsTruthy (getField v "type") = true ∧
          ¬ (jsStrictEq (getField v "type") (.vStr "text") = true ∨
             jsStrictEq (getField v "type") (.vStr "select") = true)
      · rw [if_pos h3]
        have htype : (!jsTruthy (getField v "type") ||
            jsStrictEq (getField v "type") (JSVal.vStr "text") ||
            jsStrictEq (getField v "type") (JSVal.vStr "select")) = false := by
          push_neg at h3
          simp [h3.1, h3.2.1, h3.2.2]
        simp [h1a, h1b, hgood, htype]
      · rw [if_neg h3]
        have htype : (!jsTruthy (getField v "type") ||
            jsStrictEq (getField v "type") (JSVal.vStr "text") ||
            jsStrictEq (getField v "type") (JSVal.vStr "select")) = true := by
          push_neg at h3
          cases ht : jsTruthy (getField v "type") with
          | false => simp
          | true =>
            rcases h3 ht with h | h
            · simp [h]
            · simp [h]
        by_cases h4 : jsStrictEq (getField v "type") (.vStr "select") = true
        · rw [if_pos h4]
          cases hopt : getField v "options" with
          | vArr opts =>
            by_cases h5 : opts.all (fun o => jsTypeof o == "string") = true
            · simp [h1a, h1b, hgood, htype, h4, hopt, h5]
            · simp only [Bool.not_eq_true] at h5
              simp [h1a, h1b, hgood, htype, h4, hopt, h5]
          | vStr s => simp [h1a, h1b, hgood, htype, h4, hopt]
          | vNum n => simp [h1a, h1b, hgood, htype, h4, hopt]
          | vBool b => simp [h1a, h1b, hgood, htype, h4, hopt]
          | vNull => simp [h1a, h1b, hgood, htype, h4, hopt]
          | vUndefined => simp [h1a, h1b, hgood, htype, h4, hopt]
          | vObj fs => simp [h1a, h1b, hgood, htype, h4, hopt]
        · rw [if_neg h4]
          simp only [Bool.not_eq_true] at h4
          simp [h1a, h1b, hgood, htype, h4]
          simp only [h4, Bool.or_false] at htype
          rcases (Bool.or_eq_true _ _).mp htype with h | h
          · exact Or.inl (by simpa using h)
          · exact Or.inr h


theorem varPart_nil_iff : ∀ (vs : List JSVal) (k : Nat),
    (((vs.enumFrom k).map (fun p => variableErrors p.1 p.2)).flatten = [] ↔
      vs.all specValidVariable = true) := by
  intro vs
  induction vs with
  | nil => intro k; simp
  | cons v vs ih =>
    intro k
    simp only [List.enumFrom_cons, List.map_cons, List.flatten_cons, List.append_eq_nil,
      List.all_cons, Bool.and_eq_true, variableErrors_eq_nil_iff, ih (k + 1)]

theorem validateTemplate_isValid_iff (t : JSVal) :
    (validateTemplate t).isValid = true ↔ specValidTemplate t = true := by
  unfold validateTemplate specValidTemplate
  by_cases hg : ¬ jsTruthy t = true ∨ jsTypeof t ≠ "object"
  · rw [if_pos hg]
    rcases hg with h | h <;> simp [h]
  · rw [if_neg hg]
    push_neg at hg
    obtain ⟨h1a, h1b⟩ := hg
    simp only [h1a, h1b]
    by_cases hid : ¬ jsTruthy (getField t "id") = true ∨ jsTypeof (getField t "id") ≠ "string"
    · have : goodStringField (getField t "id") = false := (goodStringField_false_iff _).mpr hid
      rw [if_pos hid]
      cases hv : getField t "variables" <;> simp [this, variablesPart, List.isEmpty_iff]
    · rw [if_neg hid]
      push_neg at hid
      have hgid : goodStringField (getField t "id") = true := by
        simp [goodStringField, hid.1, hid.2]
      by_cases hname : ¬ jsTruthy (getField t "name") = true ∨ jsTypeof (getField t "name") ≠ "string"
      · have : goodStringField (getField t "name") = false := (goodStringField_false_iff _).mpr hname
        rw [if_pos hname]
        cases hv : getField t "variables" <;> simp [this, hgid, variablesPart, List.isEmpty_iff]
      · rw [if_neg hname]
        push_neg at hname
        have hgname : goodStringField (getField t "name") = true := by
          simp [goodStringField, hname.1, hname.2]
        by_cases hbody : ¬ jsTruthy (getField t "body") = true ∨ jsTypeof (getField t "body") ≠ "string"
        · have : goodStringField (getField t "body") = false := (goodStringField_false_iff _).mpr hbody
          rw [if_pos hbody]
          cases hv : getField t "variables" <;>
            simp [this, hgid, hgname, variablesPart, List.isEmpty_iff]
        · rw [if_neg hbody]
          push_neg at hbody
          have hgbody : goodStringField (getField t "body") = true := by
            simp [goodStringField, hbody.1, hbody.2]
          cases hv : getField t "variables" with
          | vArr vs =>
            have hiff := varPart_nil_iff vs 0
            have henum : variablesPart (JSVal.vArr vs) =
                ((vs.enumFrom 0).map (fun p => variableErrors p.1 p.2)).flatten := rfl
            simp only [hv, variablesPart, List.nil_append, List.isEmpty_iff, henum, hiff,
              h1a, h1b, hgid, hgname, hgbody]
            simp only [List.flatten_eq_nil_iff, List.mem_map, forall_exists_index, and_imp,
              Prod.forall, List.all_eq_true] at hiff
            simp
            exact hiff
          | vStr s => simp [hv, hgid, hgname, hgbody, variablesPart, List.isEmpty_iff]
          | vNum n => simp [hv, hgid, hgname, hgbody, variablesPart, List.isEmpty_iff]
          | vBool b => simp [hv, hgid, hgname, hgbody, variablesPart, List.isEmpty_iff]
          | vNull => simp [hv, hgid, hgname, hgbody, variablesPart, List.isEmpty_iff]
          | vUndefined => simp [hv, hgid, hgname, hgbody, variablesPart, List.isEmpty_iff]
          | vObj fs => simp [hv, hgid, hgname, hgbody, variablesPart, List.isEmpty_iff]

theorem enumFrom_of_get? : ∀ (vs : List JSVal) (k i : Nat) (v : JSVal),
    vs.get? i = some v → (k + i, v) ∈ vs.enumFrom k := by
  intro vs
  induction vs with
  | nil => intro k i v h; simp at h
  | cons x xs ih =>
    intro k i v h
    cases i with
    | zero =>
      simp only [List.get?_cons_zero, Option.some_inj] at h
      subst h
      simp [List.enumFrom_cons]
    | succ i =>
      simp only [List.get?_cons_succ] at h
      have := ih (k + 1) i v h
      rw [List.enumFrom_cons]
      refine List.mem_cons_of_mem _ ?_
      have harith : k + 1 + i = k + (i + 1) := by omega
      rwa [harith] at this

theorem validateTemplate_errors_of_object {t : JSVal}
    (h1 : jsTruthy t = true) (h2 : jsTypeof t = "object") :
    (validateTemplate t).errors =
      (if ¬ jsTruthy (getField t "id") = true ∨ jsTypeof (getField t "id") ≠ "string" then
        ["Template must have a valid string ID"] else [])
      ++ (if ¬ jsTruthy (getField t "name") = true ∨ jsTypeof (getField t "name") ≠ "string" then
        ["Template must have a valid string name"] else [])
      ++ (if ¬ jsTruthy (getField t "body") = true ∨ jsTypeof (getField t "body") ≠ "string" then
        ["Template must have a valid string body"] else [])
      ++ variablesPart (getField t "variables") := by
  unfold validateTemplate
  rw [if_neg (by simp [h1, h2])]

/-- C4: `validateTemplate` performs the structural check — its verdict agrees
with the spec-side structural predicate — and accumulates all violations
rather than short-circuiting: on an object record, each of the id, name and
body rules that fails contributes its dedicated error string (so a record
missing all three gets all three), a variable with a missing or empty key
yields the error naming its index, and a (different) variable violating
the type rule yields its own error as well, all in the same error list. -/
theorem C4_validateTemplate_all_violations (t : JSVal) :
    ((validateTemplate t).isValid = true ↔ specValidTemplate t = true) ∧
    (jsTruthy t = true → jsTypeof t = "object" →
      (goodStringField (getField t "id") = false →
        "Template must have a valid string ID" ∈ (validateTemplate t).errors) ∧
      (goodStringField (getField t "name") = false →
        "Template must have a valid string name" ∈ (validateTemplate t).errors) ∧
      (goodStringField (getField t "body") = false →
        "Template must have a valid string body" ∈ (validateTemplate t).errors) ∧
      (∀ vs i v, getField t "variables" = .vArr vs → vs.get? i = some v →
        jsTruthy v = true → jsTypeof v = "object" →
        (goodStringField (getField v "key") = false →
          ("Variable at index " ++ toString i ++ " must have a valid string key") ∈
            (validateTemplate t).errors) ∧
        (goodStringField (getField v "key") = true →
          jsTruthy (getField v "type") = true →
          jsStrictEq (getField v "type") (.vStr "text") = false →
          jsStrictEq (getField v "type") (.vStr "select") = false →
          ("Variable \"" ++ jsToString (getField v "key") ++
            "\" has invalid type (expected \x27text\x27 or \x27select\x27)") ∈
            (validateTemplate t).errors))) := by
  refine ⟨validateTemplate_isValid_iff t, ?_⟩
  intro h1 h2
  have hshape := validateTemplate_errors_of_object h1 h2
  refine ⟨?_, ?_, ?_, ?_⟩
  · intro hgf
    rw [hshape]
    exact List.mem_append_left _ (List.mem_append_left _ (List.mem_append_left _
      (by rw [if_pos ((goodStringField_false_iff _).mp hgf)]; simp)))
  · intro hgf
    rw [hshape]
    exact List.mem_append_left _ (List.mem_append_left _ (List.mem_append_right _
      (by rw [if_pos ((goodStringField_false_iff _).mp hgf)]; simp)))
  · intro hgf
    rw [hshape]
    exact List.mem_append_left _ (List.mem_append_right _
      (by rw [if_pos ((goodStringField_false_iff _).mp hgf)]; simp))
  · intro vs i v hvs hget hvt hvo
    have henum : (i, v) ∈ vs.enum := by
      have := enumFrom_of_get? vs 0 i v hget
      simpa using this
    have hmemD : ∀ msg, msg ∈ variableErrors i v →
        msg ∈ (validateTemplate t).errors := by
      intro msg hmsg
      rw [hshape, hvs]
      refine List.mem_append_right _ ?_
      show msg ∈ variablesPart (JSVal.vArr vs)
      unfold variablesPart
      exact List.mem_flatten.mpr ⟨variableErrors i v,
        List.mem_map.mpr ⟨(i, v), henum, rfl⟩, hmsg⟩
    constructor
    · intro hkey
      refine hmemD _ ?_
      unfold variableErrors
      rw [if_neg (by simp [hvt, hvo]), if_pos ((goodStringField_false_iff _).mp hkey)]
      simp
    · intro hkey htype htext hselect
      refine hmemD _ ?_
      unfold variableErrors
      have hkey2 : ¬ (¬ jsTruthy (getField v "key") = true ∨
          jsTypeof (getField v "key") ≠ "string") := by
        simp only [goodStringField, Bool.and_eq_true, beq_iff_eq] at hkey
        simp [hkey.1, hkey.2]
      rw [if_neg (by simp [hvt, hvo]), if_neg hkey2]
      refine List.mem_append_left _ ?_
      rw [if_pos ⟨htype, by simp [htext, hselect]⟩]
      simp

/-- Witness for C4: a record that is an object but is missing id, name and
body all at once, whose first variable has an empty key and whose second
variable has an invalid type — every violated rule is reported. -/
theorem C4_witness :
    ("Template must have a valid string ID" ∈ (validateTemplate
      (.vObj [("variables", .vArr [.vObj [("key", .vStr "")],
        .vObj [("key", .vStr "k"), ("type", .vStr "weird")]])])).errors) ∧
    ("Template must have a valid string name" ∈ (validateTemplate
      (.vObj [("variables", .vArr [.vObj [("key", .vStr "")],
        .vObj [("key", .vStr "k"), ("type", .vStr "weird")]])])).errors) ∧
    ("Template must have a valid string body" ∈ (validateTemplate
      (.vObj [("variables", .vArr [.vObj [("key", .vStr "")],
        .vObj [("key", .vStr "k"), ("type", .vStr "weird")]])])).errors) ∧
    ("Variable at index 0 must have a valid string key" ∈ (validateTemplate
      (.vObj [("variables", .vArr [.vObj [("key", .vStr "")],
        .vObj [("key", .vStr "k"), ("type", .vStr "weird")]])])).errors) ∧
    ("Variable \"k\" has invalid type (expected \x27text\x27 or \x27select\x27)" ∈ (validateTemplate
      (.vObj [("variables", .vArr [.vObj [("key", .vStr "")],
        .vObj [("key", .vStr "k"), ("type", .vStr "weird")]])])).errors) := by
  have h := (C4_validateTemplate_all_violations
    (.vObj [("variables", .vArr [.vObj [("key", .vStr "")],
      .vObj [("key", .vStr "k"), ("type", .vStr "weird")]])])).2 rfl rfl
  refine ⟨h.1 rfl, h.2.1 rfl, h.2.2.1 rfl, ?_, ?_⟩
  · exact (h.2.2.2 _ 0 _ rfl rfl rfl rfl).1 rfl
  · exact (h.2.2.2 _ 1 _ rfl rfl rfl rfl).2 rfl rfl rfl rfl

/-! ## Helper lemmas: template manager, and C5 -/

theorem saveTemplates_ok {l l' : List JSVal} (h : saveTemplates l = .ok l') : l' = l := by
  simp only [saveTemplates] at h
  by_cases hc : (l.filter (fun t => !(validateTemplate t).isValid)).isEmpty = true
  · rw [if_pos hc] at h
    injection h with h1
    exact h1.symm
  · rw [if_neg hc] at h
    exact absurd h (by simp)

theorem saveTemplates_ok_of_all_valid {l : List JSVal}
    (h : ∀ t ∈ l, (validateTemplate t).isValid = true) : saveTemplates l = .ok l := by
  simp only [saveTemplates]
  have hf : l.filter (fun t => !(validateTemplate t).isValid) = [] := by
    rw [List.filter_eq_nil_iff]
    intro t ht
    simp [h t ht]
  rw [hf]
  rfl

theorem jsStrictEq_symm (a b : JSVal) : jsStrictEq a b = jsStrictEq b a := by
  cases a <;> cases b <;> simp [jsStrictEq, Bool.beq_comm]

theorem find?_map_overwrite (fs : List (String × JSVal)) (k k2 : String) (val : JSVal)
    (h : k2 ≠ k) :
    (fs.map (fun p => if p.1 == k then (p.1, val) else p)).find? (fun p => p.1 == k2) =
      fs.find? (fun p => p.1 == k2) := by
  induction fs with
  | nil => rfl
  | cons p fs ih =>
    obtain ⟨k1, v1⟩ := p
    by_cases hk : k1 = k
    · subst hk
      have hk1k2 : (k1 == k2) = false := by
        rw [beq_eq_false_iff_ne]
        exact fun he => h he.symm
      have hstep : ((k1, v1) :: fs).map (fun p => if p.1 == k1 then (p.1, val) else p) =
          (k1, val) :: fs.map (fun p => if p.1 == k1 then (p.1, val) else p) := by
        simp
      rw [hstep, List.find?_cons, List.find?_cons]
      simp only [hk1k2]
      exact ih
    · have hstep : ((k1, v1) :: fs).map (fun p => if p.1 == k then (p.1, val) else p) =
          (k1, v1) :: fs.map (fun p => if p.1 == k then (p.1, val) else p) := by
        simp [hk]
      rw [hstep, List.find?_cons, List.find?_cons]
      by_cases h2 : k1 = k2
      · subst h2
        simp only [beq_self_eq_true]
      · have hne : (k1 == k2) = false := by
          rw [beq_eq_false_iff_ne]
          exact h2
        simp only [hne]
        exact ih

theorem getField_setField_ne (v : JSVal) (k k2 : String) (val : JSVal) (h : k2 ≠ k) :
    getField (setField v k val) k2 = getField v k2 := by
  cases v with
  | vObj fs =>
    simp only [setField]
    by_cases hex : fs.any (fun p => p.1 == k) = true
    · rw [if_pos hex]
      simp only [getField, lookupField]
      rw [find?_map_overwrite fs k k2 val h]
    · rw [if_neg hex]
      simp only [getField, lookupField]
      rw [List.find?_append]
      have hkk2 : (k == k2) = false := by
        rw [beq_eq_false_iff_ne]
        exact fun he => h he.symm
      have : ([(k, val)].find? (fun p => p.1 == k2)) = none := by
        rw [List.find?_cons]
        simp [hkk2]
      rw [this]
      simp
  | vStr s => rfl
  | vNum n => rfl
  | vBool b => rfl
  | vNull => rfl
  | vUndefined => rfl
  | vArr xs => rfl

theorem getField_setField_same (fs : List (String × JSVal)) (k : String) (val : JSVal) :
    getField (setField (.vObj fs) k val) k = val := by
  simp only [setField]
  by_cases hex : fs.any (fun p => p.1 == k) = true
  · rw [if_pos hex]
    simp only [getField, lookupField]
    induction fs with
    | nil => simp at hex
    | cons p fs ih =>
      obtain ⟨k1, v1⟩ := p
      by_cases h1 : k1 = k
      · subst h1
        simp [List.find?_cons]
      · have hk : (k1 == k) = false := by
          rw [beq_eq_false_iff_ne]
          exact h1
        simp only [List.any_cons, hk, Bool.false_or] at hex
        have hstep : (List.map (fun p => if p.1 == k then (p.1, val) else p) ((k1, v1) :: fs)) =
            (k1, v1) :: List.map (fun p => if p.1 == k then (p.1, val) else p) fs := by
          simp [h1]
        rw [hstep, List.find?_cons]
        simp only [hk]
        exact ih hex
  · rw [if_neg hex]
    simp only [getField, lookupField]
    rw [List.find?_append]
    have hnone : fs.find? (fun p => p.1 == k) = none := by
      rw [List.find?_eq_none]
      intro p hp
      simp only [Bool.not_eq_true]
      by_contra hc
      simp only [Bool.not_eq_false] at hc
      exact hex (List.any_eq_true.mpr ⟨p, hp, hc⟩)
    rw [hnone]
    simp [List.find?_cons]

theorem valid_is_obj {t : JSVal} (h : (validateTemplate t).isValid = true) :
    ∃ fs, t = JSVal.vObj fs := by
  rw [validateTemplate_isValid_iff] at h
  unfold specValidTemplate at h
  cases t with
  | vObj fs => exact ⟨fs, rfl⟩
  | vArr xs => simp [jsTruthy, jsTypeof, getField, goodStringField] at h
  | vStr s => simp [jsTruthy, jsTypeof] at h
  | vNum n => simp [jsTruthy, jsTypeof] at h
  | vBool b => simp [jsTruthy, jsTypeof] at h
  | vNull => simp [jsTruthy] at h
  | vUndefined => simp [jsTruthy] at h

theorem getField_assignedCandidate_name (cand : JSVal) (freshId : String) :
    getField (assignedCandidate cand freshId) "name" = getField cand "name" := by
  unfold assignedCandidate
  by_cases h : jsTruthy (getField cand "id") = true
  · rw [if_pos h]
  · rw [if_neg h]
    exact getField_setField_ne cand "id" "name" _ (by decide)

theorem addTemplate_conflict (state : List JSVal) (cand : JSVal) (freshId : String)
    (h : ∃ t0 ∈ state,
      jsStrictEq (getField t0 "id") (getField (assignedCandidate cand freshId) "id") = true ∨
      jsStrictEq (getField t0 "name") (getField (assignedCandidate cand freshId) "name") = true) :
    (∃ e, (addTemplate state cand freshId).2 = Except.error e) ∧
    (addTemplate state cand freshId).1 = state := by
  simp only [addTemplate]
  by_cases hid : state.any (fun t =>
      jsStrictEq (getField t "id") (getField (assignedCandidate cand freshId) "id")) = true
  · rw [if_pos hid]
    exact ⟨⟨_, rfl⟩, rfl⟩
  · rw [if_neg hid]
    have hname : state.any (fun t =>
        jsStrictEq (getField t "name") (getField (assignedCandidate cand freshId) "name")) = true := by
      obtain ⟨t0, hmem, hor⟩ := h
      rcases hor with hi | hn
      · exact absurd (List.any_eq_true.mpr ⟨t0, hmem, hi⟩) hid
      · exact List.any_eq_true.mpr ⟨t0, hmem, hn⟩
    rw [if_pos hname]
    exact ⟨⟨_, rfl⟩, rfl⟩

theorem addTemplate_error_state (state : List JSVal) (cand : JSVal) (freshId : String) :
    ∀ e, (addTemplate state cand freshId).2 = Except.error e →
      (addTemplate state cand freshId).1 = state := by
  intro e he
  simp only [addTemplate] at he ⊢
  by_cases h1 : state.any (fun t =>
      jsStrictEq (getField t "id") (getField (assignedCandidate cand freshId) "id")) = true
  · rw [if_pos h1]
  · rw [if_neg h1] at he ⊢
    by_cases h2 : state.any (fun t =>
        jsStrictEq (getField t "name") (getField (assignedCandidate cand freshId) "name")) = true
    · rw [if_pos h2]
    · rw [if_neg h2] at he ⊢
      by_cases h3 : (!(validateTemplate (assignedCandidate cand freshId)).isValid) = true
      · rw [if_pos h3]
      · rw [if_neg h3] at he ⊢
        cases hs : saveTemplates (state ++ [assignedCandidate cand freshId]) with
        | ok ts => rw [hs] at he; simp at he
        | error e2 => rfl

theorem addTemplate_ok (state : List JSVal) (cand : JSVal) (freshId : String) :
    ∀ t, (addTemplate state cand freshId).2 = Except.ok t →
      t = assignedCandidate cand freshId ∧
      (validateTemplate t).isValid = true ∧
      (addTemplate state cand freshId).1 = state ++ [t] := by
  intro t ht
  simp only [addTemplate] at ht ⊢
  by_cases h1 : state.any (fun t =>
      jsStrictEq (getField t "id") (getField (assignedCandidate cand freshId) "id")) = true
  · rw [if_pos h1] at ht
    simp at ht
  · rw [if_neg h1] at ht ⊢
    by_cases h2 : state.any (fun t =>
        jsStrictEq (getField t "name") (getField (assignedCandidate cand freshId) "name")) = true
    · rw [if_pos h2] at ht
      simp at ht
    · rw [if_neg h2] at ht ⊢
      by_cases h3 : (!(validateTemplate (assignedCandidate cand freshId)).isValid) = true
      · rw [if_pos h3] at ht
        simp at ht
      · rw [if_neg h3] at ht ⊢
        cases hs : saveTemplates (state ++ [assignedCandidate cand freshId]) with
        | ok ts =>
          rw [hs] at ht
          have ht1 : (Except.ok (assignedCandidate cand freshId) : Except String JSVal) =
              Except.ok t := ht
          injection ht1 with ht2
          refine ⟨ht2.symm, ?_, ?_⟩
          · rw [← ht2]
            simpa using h3
          · show ts = state ++ [t]
            rw [← ht2]
            exact saveTemplates_ok hs
        | error e2 =>
          rw [hs] at ht
          simp at ht

/-- C5: `addTemplate` assigns the generated id when the candidate has no
truthy id of its own; it rejects — leaving the persisted collection exactly as
it was — whenever any existing template strictly equals the (id-assigned)
candidate on id or on name; it returns success only for the validated
id-assigned record, and only then appends it and persists the grown
collection; and after a successful add, a second add with the same name is
always rejected and changes nothing, so no two records with identical display
names are ever created. -/
theorem C5_addTemplate_guarded (state : List JSVal) (cand : JSVal) (freshId : String) :
    (∀ e, (addTemplate state cand freshId).2 = Except.error e →
      (addTemplate state cand freshId).1 = state) ∧
    (jsTruthy (getField cand "id") = false →
      ∀ t, (addTemplate state cand freshId).2 = Except.ok t →
        t = setField cand "id" (.vStr freshId) ∧ getField t "id" = .vStr freshId) ∧
    ((∃ t0 ∈ state,
        jsStrictEq (getField t0 "id") (getField (assignedCandidate cand freshId) "id") = true ∨
        jsStrictEq (getField t0 "name") (getField (assignedCandidate cand freshId) "name") = true) →
      (∃ e, (addTemplate state cand freshId).2 = Except.error e) ∧
      (addTemplate state cand freshId).1 = state) ∧
    (∀ t, (addTemplate state cand freshId).2 = Except.ok t →
      t = assignedCandidate cand freshId ∧ (validateTemplate t).isValid = true ∧
      (addTemplate state cand freshId).1 = state ++ [t]) ∧
    (∀ t, (addTemplate state cand freshId).2 = Except.ok t →
      ∀ cand2 freshId2, jsStrictEq (getField cand2 "name") (getField t "name") = true →
        (∃ e, (addTemplate ((addTemplate state cand freshId).1) cand2 freshId2).2 =
          Except.error e) ∧
        (addTemplate ((addTemplate state cand freshId).1) cand2 freshId2).1 =
          (addTemplate state cand freshId).1) := by
  refine ⟨addTemplate_error_state state cand freshId, ?_,
    addTemplate_conflict state cand freshId, addTemplate_ok state cand freshId, ?_⟩
  · intro hid t hok
    obtain ⟨ht1, ht2, _⟩ := addTemplate_ok state cand freshId t hok
    have ht1' : t = setField cand "id" (.vStr freshId) := by
      rw [ht1]
      unfold assignedCandidate
      rw [if_neg (by simp [hid])]
    refine ⟨ht1', ?_⟩
    obtain ⟨fs, hfs⟩ := valid_is_obj ht2
    rw [ht1']
    cases cand with
    | vObj fs0 => exact getField_setField_same fs0 _ _
    | vStr s =>
      rw [ht1'] at hfs
      simp [setField] at hfs
    | vNum n =>
      rw [ht1'] at hfs
      simp [setField] at hfs
    | vBool b =>
      rw [ht1'] at hfs
      simp [setField] at hfs
    | vNull =>
      rw [ht1'] at hfs
      simp [setField] at hfs
    | vUndefined =>
      rw [ht1'] at hfs
      simp [setField] at hfs
    | vArr xs =>
      rw [ht1'] at hfs
      simp [setField] at hfs
  · intro t hok cand2 freshId2 hname
    obtain ⟨ht1, ht2, ht3⟩ := addTemplate_ok state cand freshId t hok
    have hmem : t ∈ (addTemplate state cand freshId).1 := by
      rw [ht3]
      simp
    have hsymm : jsStrictEq (getField t "name")
        (getField (assignedCandidate cand2 freshId2) "name") = true := by
      rw [getField_assignedCandidate_name, jsStrictEq_symm]
      exact hname
    exact addTemplate_conflict _ cand2 freshId2 ⟨t, hmem, Or.inr hsymm⟩

theorem C5_witness :
    ((addTemplate []
        (.vObj [("name", .vStr "A"), ("body", .vStr "b"), ("variables", .vArr [])]) "id-1").2 =
      Except.ok (.vObj [("name", .vStr "A"), ("body", .vStr "b"), ("variables", .vArr []),
        ("id", .vStr "id-1")])) ∧
    getField (.vObj [("name", .vStr "A"), ("body", .vStr "b"), ("variables", .vArr []),
        ("id", .vStr "id-1")]) "id" = .vStr "id-1" ∧
    (∃ e, (addTemplate
        ((addTemplate []
          (.vObj [("name", .vStr "A"), ("body", .vStr "b"), ("variables", .vArr [])]) "id-1").1)
        (.vObj [("name", .vStr "A"), ("body", .vStr "c"), ("variables", .vArr [])]) "id-2").2 =
      Except.error e) := by
  refine ⟨rfl, ?_, ?_⟩
  · exact ((C5_addTemplate_guarded []
      (.vObj [("name", .vStr "A"), ("body", .vStr "b"), ("variables", .vArr [])]) "id-1").2.1
      rfl _ rfl).2
  · exact ((C5_addTemplate_guarded []
      (.vObj [("name", .vStr "A"), ("body", .vStr "b"), ("variables", .vArr [])]) "id-1").2.2.2.2
      _ rfl (.vObj [("name", .vStr "A"), ("body", .vStr "c"), ("variables", .vArr [])]) "id-2"
      rfl).1

/-! ## Object spread and updateTemplate (C7) -/

theorem find?_key_map_spread (bs : List (String × JSVal)) (k : String) :
    ∀ (as : List (String × JSVal)),
      (as.map (fun p => (p.1, (lookupField bs p.1).getD p.2))).find? (fun p => p.1 == k) =
      ((as.find? (fun p => p.1 == k)).map (fun p => (p.1, (lookupField bs p.1).getD p.2))) := by
  intro as
  induction as with
  | nil => rfl
  | cons q qs ih =>
    obtain ⟨k1, v1⟩ := q
    by_cases h1 : k1 = k
    · subst h1
      simp [List.find?_cons]
    · have hne : (k1 == k) = false := by
        rw [beq_eq_false_iff_ne]
        exact h1
      simp only [List.map_cons, List.find?_cons, hne]
      exact ih

theorem find?_filter_not_in (as bs : List (String × JSVal)) (k : String)
    (hany : as.any (fun p => p.1 == k) = false) :
    (bs.filter (fun q => !(as.any (fun p => p.1 == q.1)))).find? (fun p => p.1 == k) =
      bs.find? (fun p => p.1 == k) := by
  induction bs with
  | nil => rfl
  | cons q qs ih =>
    obtain ⟨k1, v1⟩ := q
    by_cases h1 : k1 = k
    · subst h1
      have hg : (!(as.any (fun p => p.1 == k1))) = true := by simp [hany]
      simp [List.filter_cons, hg, List.find?_cons]
    · have hne : (k1 == k) = false := by
        rw [beq_eq_false_iff_ne]
        exact h1
      by_cases hg : (as.any (fun p => p.1 == k1)) = true
      · simp only [List.filter_cons, hg, Bool.not_true, Bool.false_eq_true, if_false,
          List.find?_cons, hne, ih]
      · have hg2 : (!(as.any (fun p => p.1 == k1))) = true := by
          simp only [Bool.not_eq_true] at hg
          simp [hg]
        simp only [List.filter_cons, hg2, if_true, List.find?_cons, hne, ih]

theorem lookupField_append (l1 l2 : List (String × JSVal)) (k : String) :
    lookupField (l1 ++ l2) k =
      match lookupField l1 k with
      | some w => some w
      | none => lookupField l2 k := by
  unfold lookupField
  rw [List.find?_append]
  cases h : l1.find? (fun p => p.1 == k) <;> simp [h]

theorem lookupField_map_spread (as bs : List (String × JSVal)) (k : String) :
    lookupField (as.map (fun p => (p.1, (lookupField bs p.1).getD p.2))) k =
      (as.find? (fun p => p.1 == k)).map (fun p => (lookupField bs p.1).getD p.2) := by
  rw [lookupField, find?_key_map_spread, Option.map_map]
  rfl

theorem lookupField_spreadFields (as bs : List (String × JSVal)) (k : String) :
    lookupField (spreadFields as bs) k =
      match lookupField bs k with
      | some w => some w
      | none => lookupField as k := by
  unfold spreadFields
  rw [lookupField_append, lookupField_map_spread]
  cases hf : as.find? (fun p => p.1 == k) with
  | some p0 =>
    have hp0 : p0.1 = k := by simpa using List.find?_some hf
    simp only [Option.map_some', hp0]
    cases hb : lookupField bs k with
    | some w => simp [hb]
    | none =>
      simp only [hb, Option.getD_none]
      simp [lookupField, hf]
  | none =>
    have hmem := List.find?_eq_none.mp hf
    have hany2 : as.any (fun p => p.1 == k) = false := by
      rw [Bool.eq_false_iff]
      intro hc
      rcases List.any_eq_true.mp hc with ⟨p, hp, hpk⟩
      exact absurd hpk (by simpa using hmem p hp)
    rw [show lookupField (bs.filter (fun q => !(as.any (fun p => p.1 == q.1)))) k =
        lookupField bs k from by
      rw [lookupField, find?_filter_not_in as bs k hany2, lookupField]]
    cases hb : lookupField bs k <;> simp [lookupField, hf]

theorem getField_vObj (fs : List (String × JSVal)) (k : String) :
    getField (.vObj fs) k = (lookupField fs k).getD .vUndefined := rfl

theorem getField_jsSpread (a b : JSVal) (k : String) :
    getField (jsSpread a b) k =
      match lookupField (objFields b) k with
      | some w => w
      | none => getField a k := by
  unfold jsSpread
  rw [getField_vObj, lookupField_spreadFields]
  cases hb : lookupField (objFields b) k with
  | some w => simp
  | none =>
    cases a with
    | vObj fs => exact (getField_vObj fs k).symm
    | vStr s => simp [objFields, lookupField, getField]
    | vNum n => simp [objFields, lookupField, getField]
    | vBool bb => simp [objFields, lookupField, getField]
    | vNull => simp [objFields, lookupField, getField]
    | vUndefined => simp [objFields, lookupField, getField]
    | vArr xs => simp [objFields, lookupField, getField]


theorem updateTemplate_error_state (state : List JSVal) (tid : String) (u : JSVal) :
    ∀ e, (updateTemplate state tid u).2 = Except.error e →
      (updateTemplate state tid u).1 = state := by
  intro e he
  cases hf : state.findIdx? (fun t => jsStrictEq (getField t "id") (.vStr tid)) with
  | none => simp only [updateTemplate, hf]
  | some i =>
    simp only [updateTemplate, hf] at he ⊢
    by_cases h1 : (!(validateTemplate (jsSpread (state.getD i .vUndefined) u)).isValid) = true
    · rw [if_pos h1]
    · rw [if_neg h1] at he ⊢
      by_cases h2 : state.any (fun t =>
          !(jsStrictEq (getField t "id") (.vStr tid)) &&
          jsStrictEq (getField t "name")
            (getField (jsSpread (state.getD i .vUndefined) u) "name")) = true
      · rw [if_pos h2]
      · rw [if_neg h2] at he ⊢
        cases hs : saveTemplates (state.set i (jsSpread (state.getD i .vUndefined) u)) with
        | ok ts => rw [hs] at he; simp at he
        | error e2 => rfl

theorem updateTemplate_not_found (state : List JSVal) (tid : String) (u : JSVal)
    (h : state.findIdx? (fun t => jsStrictEq (getField t "id") (.vStr tid)) = none) :
    updateTemplate state tid u =
      (state, Except.error ("Template with ID \"" ++ tid ++ "\" not found")) := by
  simp only [updateTemplate, h]

theorem updateTemplate_ok (state : List JSVal) (tid : String) (u : JSVal) :
    ∀ m, (updateTemplate state tid u).2 = Except.ok m →
      ∃ i, state.findIdx? (fun t => jsStrictEq (getField t "id") (.vStr tid)) = some i ∧
        m = jsSpread (state.getD i .vUndefined) u ∧
        (validateTemplate m).isValid = true ∧
        (updateTemplate state tid u).1 = state.set i m := by
  intro m hm
  cases hf : state.findIdx? (fun t => jsStrictEq (getField t "id") (.vStr tid)) with
  | none => simp only [updateTemplate, hf] at hm; simp at hm
  | some i =>
    simp only [updateTemplate, hf] at hm ⊢
    refine ⟨i, rfl, ?_⟩
    by_cases h1 : (!(validateTemplate (jsSpread (state.getD i .vUndefined) u)).isValid) = true
    · rw [if_pos h1] at hm
      simp at hm
    · rw [if_neg h1] at hm ⊢
      by_cases h2 : state.any (fun t =>
          !(jsStrictEq (getField t "id") (.vStr tid)) &&
          jsStrictEq (getField t "name")
            (getField (jsSpread (state.getD i .vUndefined) u) "name")) = true
      · rw [if_pos h2] at hm
        simp at hm
      · rw [if_neg h2] at hm ⊢
        cases hs : saveTemplates (state.set i (jsSpread (state.getD i .vUndefined) u)) with
        | ok ts =>
          rw [hs] at hm
          have hm1 : (Except.ok (jsSpread (state.getD i .vUndefined) u) : Except String JSVal) =
              Except.ok m := hm
          injection hm1 with hm2
          refine ⟨hm2.symm, ?_, ?_⟩
          · rw [← hm2]
            simpa using h1
          · show ts = state.set i m
            rw [← hm2]
            exact saveTemplates_ok hs
        | error e2 =>
          rw [hs] at hm
          simp at hm

theorem updateTemplate_name_conflict (state : List JSVal) (tid : String) (u : JSVal) (i : Nat)
    (hf : state.findIdx? (fun t => jsStrictEq (getField t "id") (.vStr tid)) = some i)
    (hc : ∃ t ∈ state, jsStrictEq (getField t "id") (.vStr tid) = false ∧
      jsStrictEq (getField t "name")
        (getField (jsSpread (state.getD i .vUndefined) u) "name") = true) :
    (∃ e, (updateTemplate state tid u).2 = Except.error e) ∧
    (updateTemplate state tid u).1 = state := by
  simp only [updateTemplate, hf]
  by_cases h1 : (!(validateTemplate (jsSpread (state.getD i .vUndefined) u)).isValid) = true
  · rw [if_pos h1]
    exact ⟨⟨_, rfl⟩, rfl⟩
  · rw [if_neg h1]
    have h2 : state.any (fun t =>
        !(jsStrictEq (getField t "id") (.vStr tid)) &&
        jsStrictEq (getField t "name")
          (getField (jsSpread (state.getD i .vUndefined) u) "name")) = true := by
      obtain ⟨t0, hmem, hid, hn⟩ := hc
      exact List.any_eq_true.mpr ⟨t0, hmem, by rw [hid]; simpa using hn⟩
    rw [if_pos h2]
    exact ⟨⟨_, rfl⟩, rfl⟩

/-- C7: `updateTemplate` merges the patch over the record found by id
(patch fields override, unmentioned fields are kept), re-validates the
merged record, rejects with a not-found error when no record carries the
id, rejects when another record with a different id carries the merged
name, persists the collection with only that one record replaced on
success, and leaves the persisted collection unchanged on every error. -/
theorem C7_updateTemplate_merge (state : List JSVal) (tid : String) (u : JSVal) :
    (∀ e, (updateTemplate state tid u).2 = Except.error e →
      (updateTemplate state tid u).1 = state) ∧
    (state.findIdx? (fun t => jsStrictEq (getField t "id") (.vStr tid)) = none →
      updateTemplate state tid u =
        (state, Except.error ("Template with ID \"" ++ tid ++ "\" not found"))) ∧
    (∀ m, (updateTemplate state tid u).2 = Except.ok m →
      ∃ i, state.findIdx? (fun t => jsStrictEq (getField t "id") (.vStr tid)) = some i ∧
        m = jsSpread (state.getD i .vUndefined) u ∧
        (∀ k, getField m k =
          match lookupField (objFields u) k with
          | some w => w
          | none => getField (state.getD i .vUndefined) k) ∧
        (validateTemplate m).isValid = true ∧
        (updateTemplate state tid u).1 = state.set i m ∧
        (∀ j, j ≠ i → ((updateTemplate state tid u).1)[j]? = state[j]?)) ∧
    (∀ i, state.findIdx? (fun t => jsStrictEq (getField t "id") (.vStr tid)) = some i →
      (∃ t ∈ state, jsStrictEq (getField t "id") (.vStr tid) = false ∧
        jsStrictEq (getField t "name")
          (getField (jsSpread (state.getD i .vUndefined) u) "name") = true) →
      (∃ e, (updateTemplate state tid u).2 = Except.error e) ∧
      (updateTemplate state tid u).1 = state) := by
  refine ⟨updateTemplate_error_state state tid u,
    updateTemplate_not_found state tid u, ?_,
    fun i hf hc => updateTemplate_name_conflict state tid u i hf hc⟩
  intro m hm
  obtain ⟨i, hf, hm2, hv, hst⟩ := updateTemplate_ok state tid u m hm
  refine ⟨i, hf, hm2, ?_, hv, hst, ?_⟩
  · intro k
    rw [hm2]
    exact getField_jsSpread _ u k
  · intro j hj
    rw [hst]
    exact List.getElem?_set_ne (Ne.symm hj)

theorem C7_witness :
    ((updateTemplate
        [.vObj [("id", .vStr "t1"), ("name", .vStr "A"), ("body", .vStr "b"),
          ("variables", .vArr [])]]
        "t1" (.vObj [("body", .vStr "B")])).1 =
      [.vObj [("id", .vStr "t1"), ("name", .vStr "A"), ("body", .vStr "B"),
        ("variables", .vArr [])]] ∧
      (validateTemplate (.vObj [("id", .vStr "t1"), ("name", .vStr "A"),
        ("body", .vStr "B"), ("variables", .vArr [])])).isValid = true) ∧
    updateTemplate
        [.vObj [("id", .vStr "t1"), ("name", .vStr "A"), ("body", .vStr "b"),
          ("variables", .vArr [])]]
        "t2" (.vObj [("body", .vStr "B")]) =
      ([.vObj [("id", .vStr "t1"), ("name", .vStr "A"), ("body", .vStr "b"),
        ("variables", .vArr [])]],
       Except.error "Template with ID \"t2\" not found") := by
  constructor
  · obtain ⟨i, hf, hm, hmerge, hv, hst, hother⟩ :=
      (C7_updateTemplate_merge
        [.vObj [("id", .vStr "t1"), ("name", .vStr "A"), ("body", .vStr "b"),
          ("variables", .vArr [])]]
        "t1" (.vObj [("body", .vStr "B")])).2.2.1
        (.vObj [("id", .vStr "t1"), ("name", .vStr "A"), ("body", .vStr "B"),
          ("variables", .vArr [])]) rfl
    have hi : i = 0 := by
      have h0 : some i = some 0 := by rw [← hf]; rfl
      injection h0
    subst hi
    exact ⟨hst, hv⟩
  · exact (C7_updateTemplate_merge
      [.vObj [("id", .vStr "t1"), ("name", .vStr "A"), ("body", .vStr "b"),
        ("variables", .vArr [])]]
      "t2" (.vObj [("body", .vStr "B")])).2.1 rfl

/-! ## getTemplates totality (C10) -/

/-- C10: `getTemplates` is total and never propagates an error: it
returns the stored list when the stored value is an array, and the
built-in defaults when the key is absent, when the stored value is not
an array, or when the storage read fails; every storage outcome lands in
one of these two cases. -/
theorem C10_getTemplates_total (defaults : List JSVal) (r : StorageRead) :
    (∀ ts, r = .ok (some (.vArr ts)) → getTemplates defaults r = ts) ∧
    (r = .ok none → getTemplates defaults r = defaults) ∧
    (∀ msg, r = .fail msg → getTemplates defaults r = defaults) ∧
    (∀ v, r = .ok (some v) → (∀ ts, v ≠ .vArr ts) →
      getTemplates defaults r = defaults) ∧
    (getTemplates defaults r = defaults ∨
      ∃ ts, r = .ok (some (.vArr ts)) ∧ getTemplates defaults r = ts) := by
  refine ⟨?_, ?_, ?_, ?_, ?_⟩
  · intro ts h
    subst h
    rfl
  · intro h
    subst h
    rfl
  · intro msg h
    subst h
    rfl
  · intro v h hne
    subst h
    cases v with
    | vArr ts => exact absurd rfl (hne ts)
    | vStr s => rfl
    | vNum n => rfl
    | vBool b => rfl
    | vNull => rfl
    | vUndefined => rfl
    | vObj fs => rfl
  · cases r with
    | fail msg => exact Or.inl rfl
    | ok ov =>
      cases ov with
      | none => exact Or.inl rfl
      | some v =>
        cases v with
        | vArr ts => exact Or.inr ⟨ts, rfl, rfl⟩
        | vStr s => exact Or.inl rfl
        | vNum n => exact Or.inl rfl
        | vBool b => exact Or.inl rfl
        | vNull => exact Or.inl rfl
        | vUndefined => exact Or.inl rfl
        | vObj fs => exact Or.inl rfl

theorem C10_witness :
    getTemplates [.vStr "d"] (.ok (some (.vArr [.vStr "x", .vStr "y"]))) =
      [.vStr "x", .vStr "y"] ∧
    getTemplates [.vStr "d"] (.fail "storage unavailable") = [.vStr "d"] ∧
    getTemplates [.vStr "d"] (.ok (some (.vStr "oops"))) = [.vStr "d"] ∧
    getTemplates [.vStr "d"] (.ok none) = [.vStr "d"] := by
  refine ⟨?_, ?_, ?_, ?_⟩
  · exact (C10_getTemplates_total [.vStr "d"]
      (.ok (some (.vArr [.vStr "x", .vStr "y"])))).1 _ rfl
  · exact (C10_getTemplates_total [.vStr "d"] (.fail "storage unavailable")).2.2.1 _ rfl
  · exact (C10_getTemplates_total [.vStr "d"] (.ok (some (.vStr "oops")))).2.2.2.1 _ rfl
      (fun ts h => by cases h)
  · exact (C10_getTemplates_total [.vStr "d"] (.ok none)).2.1 rfl

/-! ## Import pre-validation (C9) -/

theorem validateTemplate_isValid_eq_isEmpty (t : JSVal)
    (h1 : jsTruthy t = true) (h2 : jsTypeof t = "object") :
    (validateTemplate t).isValid = (validateTemplate t).errors.isEmpty := by
  unfold validateTemplate
  rw [if_neg (by simp [h1, h2])]

theorem validateTemplate_invalid_of_no_id (t : JSVal)
    (hid : getField t "id" = .vUndefined) :
    (validateTemplate t).isValid = false := by
  by_cases hg : ¬ jsTruthy t = true ∨ jsTypeof t ≠ "object"
  · unfold validateTemplate
    rw [if_pos hg]
  · push_neg at hg
    have herr := validateTemplate_errors_of_object hg.1 hg.2
    have hcond : (¬ jsTruthy (getField t "id") = true ∨ jsTypeof (getField t "id") ≠ "string") := by
      left
      rw [hid]
      simp [jsTruthy]
    rw [if_pos hcond] at herr
    rw [validateTemplate_isValid_eq_isEmpty t hg.1 hg.2, herr]
    simp

/-- C9: `importTemplates` runs validation strictly before id regeneration:
a parsed payload containing a record with no id field at all is rejected
with the multi-record validation error and the persisted collection is
left unchanged, and the outcome does not depend on the fresh-id supply in
any way — even though a successful import would overwrite every id. -/
theorem C9_import_requires_ids (state : List JSVal) (s : String) (freshIds : Nat → String)
    (ts : List JSVal) (t : JSVal)
    (hp : jsonParse s = some (.vArr ts))
    (hmem : t ∈ ts) (hid : getField t "id" = .vUndefined) :
    (validateTemplate t).isValid = false ∧
    (∃ msg, importTemplates state s freshIds =
      (state, Except.error ("Invalid templates found:\n" ++ msg))) ∧
    (∀ freshIds2, importTemplates state s freshIds2 = importTemplates state s freshIds) := by
  have hinv := validateTemplate_invalid_of_no_id t hid
  have hmemf : t ∈ ts.filter (fun t => !(validateTemplate t).isValid) :=
    List.mem_filter.mpr ⟨hmem, by simp [hinv]⟩
  have hcond : ¬ (ts.filter (fun t => !(validateTemplate t).isValid)).isEmpty = true := by
    rw [List.isEmpty_iff]
    exact List.ne_nil_of_mem hmemf
  refine ⟨hinv, ?_, ?_⟩
  · refine ⟨String.intercalate "\n"
      ((ts.filter (fun t => !(validateTemplate t).isValid)).map invalidTemplateLine), ?_⟩
    simp only [importTemplates, hp]
    rw [if_pos hcond]
  · intro freshIds2
    simp only [importTemplates, hp]
    rw [if_pos hcond, if_pos hcond]

theorem C9_witness :
    (validateTemplate
      (.vObj [("name", .vStr "A"), ("body", .vStr "b"), ("variables", .vArr [])])).isValid =
        false ∧
    (∃ msg, importTemplates []
        "[\x7b\"name\":\"A\",\"body\":\"b\",\"variables\":[]\x7d]"
        (fun i => "fresh-" ++ toString i) =
      ([], Except.error ("Invalid templates found:\n" ++ msg))) := by
  have h := C9_import_requires_ids []
    "[\x7b\"name\":\"A\",\"body\":\"b\",\"variables\":[]\x7d]"
    (fun i => "fresh-" ++ toString i)
    [.vObj [("name", .vStr "A"), ("body", .vStr "b"), ("variables", .vArr [])]]
    (.vObj [("name", .vStr "A"), ("body", .vStr "b"), ("variables", .vArr [])])
    rfl (by simp) rfl
  exact ⟨h.1, h.2.1⟩

/-! ## Injector failure semantics (C8) -/

/-- C8 (corrected): when no element-lookup strategy matches, the
page-context function reports the element-not-found failure as a
structured result and performs no DOM mutation, and a write-time
exception is likewise caught and converted into a structured failure
with the page untouched; but the enclosing `injectToActiveTab`
operation re-raises any unsuccessful structured result as an exception
carrying the structured message, so the failure reaches the caller of
the operation raised, not returned. -/
theorem C8_injection_failure_semantics (dom : PageDom) (text : String) (autoSend : Bool) :
    (queryChain dom inputSelectors = none →
      injectTextIntoPage dom text autoSend =
        (⟨false, some "ChatGPT input not found", none⟩, dom)) ∧
    (∀ eid msg, queryChain dom inputSelectors = some eid →
      (dom.elems eid).writeThrows = some msg →
      injectTextIntoPage dom text autoSend = (⟨false, some msg, none⟩, dom)) ∧
    (∀ t, jsIncludes ((t.url).getD "") "chatgpt.com" = true →
      (injectTextIntoPage dom text autoSend).1.success = false →
      injectToActiveTab (some t) dom text autoSend =
        .error (((injectTextIntoPage dom text autoSend).1.error).getD "Injection failed")) := by
  refine ⟨?_, ?_, ?_⟩
  · intro h
    simp only [injectTextIntoPage, h]
  · intro eid msg h hw
    simp only [injectTextIntoPage, h, hw]
  · intro t hurl hfail
    simp only [injectToActiveTab]
    rw [if_neg (by simp [hurl])]
    rw [if_neg (by simp [hfail])]

theorem C8_counterexample :
    injectToActiveTab (some ⟨some "https://chatgpt.com/"⟩)
      ⟨fun _ => none, fun _ => ⟨false, "", [], none⟩, false⟩ "hello" false =
      .error "ChatGPT input not found" ∧
    (injectTextIntoPage ⟨fun _ => none, fun _ => ⟨false, "", [], none⟩, false⟩
        "hello" false).2 =
      ⟨fun _ => none, fun _ => ⟨false, "", [], none⟩, false⟩ := by
  exact ⟨rfl, rfl⟩

theorem C8_witness :
    injectTextIntoPage ⟨fun _ => none, fun _ => ⟨false, "", [], none⟩, false⟩ "hi" true =
      (⟨false, some "ChatGPT input not found", none⟩,
        ⟨fun _ => none, fun _ => ⟨false, "", [], none⟩, false⟩) ∧
    injectTextIntoPage ⟨fun _ => some 0, fun _ => ⟨false, "", [], some "boom"⟩, false⟩
        "hi" false =
      (⟨false, some "boom", none⟩,
        ⟨fun _ => some 0, fun _ => ⟨false, "", [], some "boom"⟩, false⟩) ∧
    injectToActiveTab (some ⟨some "https://chatgpt.com/c/1"⟩)
      ⟨fun _ => none, fun _ => ⟨false, "", [], none⟩, false⟩ "hi" true =
      .error "ChatGPT input not found" := by
  refine ⟨?_, ?_, ?_⟩
  · exact (C8_injection_failure_semantics
      ⟨fun _ => none, fun _ => ⟨false, "", [], none⟩, false⟩ "hi" true).1 rfl
  · exact (C8_injection_failure_semantics
      ⟨fun _ => some 0, fun _ => ⟨false, "", [], some "boom"⟩, false⟩ "hi" false).2.1
      0 "boom" rfl rfl
  · exact (C8_injection_failure_semantics
      ⟨fun _ => none, fun _ => ⟨false, "", [], none⟩, false⟩ "hi" true).2.2
      ⟨some "https://chatgpt.com/c/1"⟩ (by decide) rfl

/-! ## JSON round-trip and export/import (C6) -/

theorem char_ofNat_digit_toNat {d : Nat} (h : d < 10) :
    (Char.ofNat (48 + d)).toNat = 48 + d := by
  interval_cases d <;> decide

theorem char_ofNat_digit_isDigit {d : Nat} (h : d < 10) :
    (Char.ofNat (48 + d)).isDigit = true := by
  interval_cases d <;> decide

theorem natDigitsRevAux_all_digits :
    ∀ (fuel n : Nat), n ≤ fuel → ∀ c ∈ natDigitsRevAux fuel n, c.isDigit = true := by
  intro fuel
  induction fuel with
  | zero => intro n h c hc; simp [natDigitsRevAux] at hc
  | succ f ih =>
    intro n h c hc
    by_cases hn : n = 0
    · simp [natDigitsRevAux, hn] at hc
    · rw [show natDigitsRevAux (f+1) n =
          Char.ofNat ('0'.toNat + n % 10) :: natDigitsRevAux f (n / 10) from by
        simp [natDigitsRevAux, hn]] at hc
      rcases List.mem_cons.mp hc with rfl | hc2
      · exact char_ofNat_digit_isDigit (Nat.mod_lt n (by omega))
      · exact ih (n / 10) (by omega) c hc2

theorem digitsToNat_append (xs : List Char) (c : Char) :
    digitsToNat (xs ++ [c]) = digitsToNat xs * 10 + (c.toNat - '0'.toNat) := by
  simp [digitsToNat, List.foldl_append]

theorem natDigitsRevAux_roundtrip :
    ∀ (fuel n : Nat), n ≤ fuel → digitsToNat (natDigitsRevAux fuel n).reverse = n := by
  intro fuel
  induction fuel with
  | zero => intro n h; interval_cases n; rfl
  | succ f ih =>
    intro n h
    by_cases hn : n = 0
    · simp [natDigitsRevAux, hn, digitsToNat]
    · rw [show natDigitsRevAux (f+1) n =
          Char.ofNat ('0'.toNat + n % 10) :: natDigitsRevAux f (n / 10) from by
        simp [natDigitsRevAux, hn]]
      rw [List.reverse_cons, digitsToNat_append, ih (n / 10) (by omega)]
      have hmod : (Char.ofNat (48 + n % 10)).toNat = 48 + n % 10 :=
        char_ofNat_digit_toNat (Nat.mod_lt n (by omega))
      . show n / 10 * 10 + ((Char.ofNat ('0'.toNat + n % 10)).toNat - '0'.toNat) = n
        rw [show '0'.toNat = 48 from rfl, hmod]
        omega

theorem renderNat_digits (n : Nat) : ∀ c ∈ renderNat n, c.isDigit = true := by
  unfold renderNat
  by_cases hn : n = 0
  · rw [if_pos hn]
    intro c hc
    simp at hc
    subst hc
    decide
  · rw [if_neg hn]
    intro c hc
    exact natDigitsRevAux_all_digits n n le_rfl c (List.mem_reverse.mp hc)

theorem renderNat_ne_nil (n : Nat) : renderNat n ≠ [] := by
  unfold renderNat
  by_cases hn : n = 0
  · rw [if_pos hn]
    simp
  · rw [if_neg hn]
    simp only [ne_eq, List.reverse_eq_nil_iff]
    unfold natDigitsRev
    cases n with
    | zero => exact absurd rfl hn
    | succ m =>
      rw [show natDigitsRevAux (m+1) (m+1) =
          Char.ofNat ('0'.toNat + (m+1) % 10) :: natDigitsRevAux m ((m+1) / 10) from by
        simp [natDigitsRevAux]]
      simp

theorem renderNat_value (n : Nat) : digitsToNat (renderNat n) = n := by
  unfold renderNat
  by_cases hn : n = 0
  · rw [if_pos hn]
    subst hn
    rfl
  · rw [if_neg hn]
    exact natDigitsRevAux_roundtrip n n le_rfl

theorem takeWhile_append_all {p : Char → Bool} :
    ∀ (xs ys : List Char), (∀ a ∈ xs, p a = true) →
      (xs ++ ys).takeWhile p = xs ++ ys.takeWhile p := by
  intro xs ys h
  induction xs with
  | nil => simp
  | cons a xs ih =>
    simp only [List.cons_append, List.takeWhile_cons, h a (by simp)]
    simp [ih (fun b hb => h b (by simp [hb]))]

theorem takeWhile_head_false {p : Char → Bool} (l : List Char)
    (h : ∀ c cs, l = c :: cs → p c = false) : l.takeWhile p = [] := by
  cases l with
  | nil => simp
  | cons c cs => simp [List.takeWhile_cons, h c cs rfl]

theorem restOk_not_digit {rest : List Char} (h : restOk rest = true) :
    ∀ c cs, rest = c :: cs → Char.isDigit c = false := by
  intro c cs hr
  subst hr
  simp only [restOk, Bool.not_eq_true', Bool.or_eq_false_iff] at h
  exact h.1.1.1

theorem restOk_numberExtends {rest : List Char} (h : restOk rest = true) :
    numberExtends rest = false := by
  cases rest with
  | nil => rfl
  | cons c cs =>
    simp only [restOk, Bool.not_eq_true', Bool.or_eq_false_iff] at h
    simp [numberExtends, h.1.1.2, h.1.2, h.2]

theorem parseJsonNumber_render (n : Int) (rest : List Char) (hr : restOk rest = true) :
    parseJsonNumber (renderInt n ++ rest) = some (n, rest) := by
  have htake : (renderNat n.natAbs ++ rest).takeWhile Char.isDigit = renderNat n.natAbs := by
    rw [takeWhile_append_all _ _ (renderNat_digits n.natAbs),
      takeWhile_head_false rest (restOk_not_digit hr), List.append_nil]
  have hdrop : (renderNat n.natAbs ++ rest).dropWhile Char.isDigit = rest := by
    rw [dropWhile_append_all _ _ (renderNat_digits n.natAbs)]
    exact dropWhile_eq_self_head rest (restOk_not_digit hr)
  by_cases hneg : n < 0
  · rw [show renderInt n = '-' :: renderNat n.natAbs from by
      unfold renderInt; rw [if_pos hneg]]
    show parseJsonNumber ('-' :: (renderNat n.natAbs ++ rest)) = some (n, rest)
    rw [show parseJsonNumber ('-' :: (renderNat n.natAbs ++ rest)) =
        (let ds := (renderNat n.natAbs ++ rest).takeWhile Char.isDigit
         let r2 := (renderNat n.natAbs ++ rest).dropWhile Char.isDigit
         if ds.isEmpty then none
         else if numberExtends r2 then none
         else some (-(digitsToNat ds : Int), r2)) from rfl]
    simp only [htake, hdrop]
    rw [if_neg (by simp [renderNat_ne_nil]), if_neg (by simp [restOk_numberExtends hr])]
    rw [renderNat_value]
    have : -(n.natAbs : Int) = n := by omega
    rw [this]
  · rw [show renderInt n = renderNat n.natAbs from by
      unfold renderInt; rw [if_neg hneg]]
    obtain ⟨c, cs, hcons⟩ : ∃ c cs, renderNat n.natAbs = c :: cs := by
      cases hl : renderNat n.natAbs with
      | nil => exact absurd hl (renderNat_ne_nil _)
      | cons c cs => exact ⟨c, cs, rfl⟩
    have hcdig : c.isDigit = true :=
      renderNat_digits n.natAbs c (by rw [hcons]; simp)
    rw [hcons]
    show parseJsonNumber (c :: (cs ++ rest)) = some (n, rest)
    rw [parseJsonNumber.eq_def]
    split
    · rename_i heq
      rw [List.cons.injEq] at heq
      obtain ⟨h1, _⟩ := heq
      subst h1
      exact absurd hcdig (by decide)
    · have hcc : c :: (cs ++ rest) = renderNat n.natAbs ++ rest := by
        rw [hcons]
        simp
      rw [hcc, htake, hdrop]
      rw [if_neg (by simp [renderNat_ne_nil]), if_neg (by simp [restOk_numberExtends hr])]
      rw [renderNat_value]
      have : (n.natAbs : Int) = n := by omega
      rw [this]

theorem parseHexDigit_hexDigitChar {d : Nat} (h : d < 16) :
    parseHexDigit (hexDigitChar d) = some d := by
  interval_cases d <;> decide

theorem parseStringBody_quote (rest : List Char) :
    parseStringBody ('"' :: rest) = some ([], rest) := by
  unfold parseStringBody
  rfl

theorem parseStringBody_escQuote (r : List Char) :
    parseStringBody ('\\' :: '"' :: r) = consStr '"' (parseStringBody r) := by
  conv_lhs => unfold parseStringBody
  rfl

theorem parseStringBody_escBackslash (r : List Char) :
    parseStringBody ('\\' :: '\\' :: r) = consStr '\\' (parseStringBody r) := by
  conv_lhs => unfold parseStringBody
  rfl

theorem parseStringBody_escB (r : List Char) :
    parseStringBody ('\\' :: 'b' :: r) = consStr '\x08' (parseStringBody r) := by
  conv_lhs => unfold parseStringBody
  rfl

theorem parseStringBody_escF (r : List Char) :
    parseStringBody ('\\' :: 'f' :: r) = consStr '\x0c' (parseStringBody r) := by
  conv_lhs => unfold parseStringBody
  rfl

theorem parseStringBody_escN (r : List Char) :
    parseStringBody ('\\' :: 'n' :: r) = consStr '\n' (parseStringBody r) := by
  conv_lhs => unfold parseStringBody
  rfl

theorem parseStringBody_escR (r : List Char) :
    parseStringBody ('\\' :: 'r' :: r) = consStr '\r' (parseStringBody r) := by
  conv_lhs => unfold parseStringBody
  rfl

theorem parseStringBody_escT (r : List Char) :
    parseStringBody ('\\' :: 't' :: r) = consStr '\t' (parseStringBody r) := by
  conv_lhs => unfold parseStringBody
  rfl

theorem parseStringBody_escU (h1 h2 h3 h4 : Char) (r2 : List Char) :
    parseStringBody ('\\' :: 'u' :: h1 :: h2 :: h3 :: h4 :: r2) =
      (match parseHexDigit h1, parseHexDigit h2, parseHexDigit h3, parseHexDigit h4 with
       | some d1, some d2, some d3, some d4 =>
         let n := ((d1 * 16 + d2) * 16 + d3) * 16 + d4
         if Nat.isValidChar n then consStr (Char.ofNat n) (parseStringBody r2)
         else none
       | _, _, _, _ => none) := by
  conv_lhs => unfold parseStringBody
  rfl

theorem parseStringBody_lit (c : Char) (rest : List Char)
    (hq : ¬ c = '"') (hb : ¬ c = '\\') (hc : ¬ c.toNat < 32) :
    parseStringBody (c :: rest) = consStr c (parseStringBody rest) := by
  conv_lhs => unfold parseStringBody
  rw [if_neg hq, if_neg hb, if_neg hc]

theorem parseStringBody_render :
    ∀ (l rest : List Char),
      parseStringBody ((l.map escapeChar).flatten ++ '"' :: rest) = some (l, rest) := by
  intro l
  induction l with
  | nil =>
    intro rest
    simp only [List.map_nil, List.flatten_nil, List.nil_append]
    exact parseStringBody_quote rest
  | cons c l ih =>
    intro rest
    simp only [List.map_cons, List.flatten_cons, List.append_assoc]
    by_cases h1 : c = '"'
    · subst h1
      rw [show escapeChar '"' = ['\\', '"'] from rfl]
      simp only [List.cons_append, List.nil_append]
      rw [parseStringBody_escQuote, ih rest]
      rfl
    · by_cases h2 : c = '\\'
      · subst h2
        rw [show escapeChar '\\' = ['\\', '\\'] from rfl]
        simp only [List.cons_append, List.nil_append]
        rw [parseStringBody_escBackslash, ih rest]
        rfl
      · by_cases h3 : c = '\x08'
        · subst h3
          rw [show escapeChar '\x08' = ['\\', 'b'] from rfl]
          simp only [List.cons_append, List.nil_append]
          rw [parseStringBody_escB, ih rest]
          rfl
        · by_cases h4 : c = '\t'
          · subst h4
            rw [show escapeChar '\t' = ['\\', 't'] from rfl]
            simp only [List.cons_append, List.nil_append]
            rw [parseStringBody_escT, ih rest]
            rfl
          · by_cases h5 : c = '\n'
            · subst h5
              rw [show escapeChar '\n' = ['\\', 'n'] from rfl]
              simp only [List.cons_append, List.nil_append]
              rw [parseStringBody_escN, ih rest]
              rfl
            · by_cases h6 : c = '\x0c'
              · subst h6
                rw [show escapeChar '\x0c' = ['\\', 'f'] from rfl]
                simp only [List.cons_append, List.nil_append]
                rw [parseStringBody_escF, ih rest]
                rfl
              · by_cases h7 : c = '\r'
                · subst h7
                  rw [show escapeChar '\r' = ['\\', 'r'] from rfl]
                  simp only [List.cons_append, List.nil_append]
                  rw [parseStringBody_escR, ih rest]
                  rfl
                · by_cases h8 : c.toNat < 32
                  · rw [show escapeChar c =
                        ['\\', 'u', '0', '0', hexDigitChar (c.toNat / 16),
                          hexDigitChar (c.toNat % 16)] from by
                      unfold escapeChar
                      rw [if_neg h1, if_neg h2, if_neg h3, if_neg h4, if_neg h5, if_neg h6,
                        if_neg h7, if_pos h8]]
                    simp only [List.cons_append, List.nil_append]
                    rw [parseStringBody_escU]
                    rw [show parseHexDigit '0' = some 0 from rfl,
                      parseHexDigit_hexDigitChar (by omega : c.toNat / 16 < 16),
                      parseHexDigit_hexDigitChar (by omega : c.toNat % 16 < 16)]
                    show (if Nat.isValidChar (((0 * 16 + 0) * 16 + c.toNat / 16) * 16 +
                        c.toNat % 16) then
                      consStr (Char.ofNat (((0 * 16 + 0) * 16 + c.toNat / 16) * 16 +
                        c.toNat % 16))
                        (parseStringBody ((l.map escapeChar).flatten ++ '"' :: rest))
                      else none) = some (c :: l, rest)
                    have hn : ((0 * 16 + 0) * 16 + c.toNat / 16) * 16 + c.toNat % 16 =
                        c.toNat := by omega
                    rw [hn, if_pos (Or.inl (by omega : c.toNat < 0xd800)),
                      Char.ofNat_toNat, ih rest]
                    rfl
                  · rw [show escapeChar c = [c] from by
                      unfold escapeChar
                      rw [if_neg h1, if_neg h2, if_neg h3, if_neg h4, if_neg h5, if_neg h6,
                        if_neg h7, if_neg h8]]
                    simp only [List.cons_append, List.nil_append]
                    rw [parseStringBody_lit c _ h1 h2 h8, ih rest]
                    rfl

theorem isJsonWs_false_of_ne {c : Char} (h1 : c ≠ ' ') (h2 : c ≠ '\n') (h3 : c ≠ '\t')
    (h4 : c ≠ '\r') : isJsonWs c = false := by
  simp [isJsonWs, h1, h2, h3, h4]

theorem ne_of_isDigit {c : Char} (h : c.isDigit = true) (d : Char)
    (hd : d.isDigit = false) : c ≠ d := by
  intro he
  subst he
  rw [h] at hd
  cases hd

theorem isJsonWs_false_of_isDigit {c : Char} (h : c.isDigit = true) : isJsonWs c = false :=
  isJsonWs_false_of_ne (ne_of_isDigit h _ (by decide)) (ne_of_isDigit h _ (by decide))
    (ne_of_isDigit h _ (by decide)) (ne_of_isDigit h _ (by decide))

theorem indentChars_all_ws (n : Nat) : ∀ a ∈ indentChars n, isJsonWs a = true := by
  intro a ha
  rw [List.eq_of_mem_replicate ha]
  decide

theorem dropWhile_ws_concat (pre : List Char) (hpre : ∀ a ∈ pre, isJsonWs a = true)
    (c : Char) (hc : isJsonWs c = false) (tail : List Char) :
    (pre ++ c :: tail).dropWhile isJsonWs = c :: tail := by
  rw [dropWhile_append_all _ _ hpre]
  exact List.dropWhile_cons_of_neg (by simp [hc])

theorem jsonFuelV_pos (v : JSVal) : 1 ≤ jsonFuelV v := by
  cases v <;> simp [jsonFuelV]

theorem jsonFuelItems_pos (xs : List JSVal) : 1 ≤ jsonFuelItems xs := by
  cases xs <;> simp [jsonFuelItems]

theorem jsonFuelFields_pos (fs : List (String × JSVal)) : 1 ≤ jsonFuelFields fs := by
  cases fs with
  | nil => simp [jsonFuelFields]
  | cons g gs =>
    obtain ⟨k, v⟩ := g
    simp [jsonFuelFields]

theorem parseJsonVal_null {fuel : Nat} {l r : List Char}
    (hdw : l.dropWhile isJsonWs = 'n' :: 'u' :: 'l' :: 'l' :: r) :
    parseJsonVal (fuel + 1) l = some (.vNull, r) := by
  conv_lhs => unfold parseJsonVal
  rw [hdw]
  rfl

theorem parseJsonVal_true {fuel : Nat} {l r : List Char}
    (hdw : l.dropWhile isJsonWs = 't' :: 'r' :: 'u' :: 'e' :: r) :
    parseJsonVal (fuel + 1) l = some (.vBool true, r) := by
  conv_lhs => unfold parseJsonVal
  rw [hdw]
  rfl

theorem parseJsonVal_false {fuel : Nat} {l r : List Char}
    (hdw : l.dropWhile isJsonWs = 'f' :: 'a' :: 'l' :: 's' :: 'e' :: r) :
    parseJsonVal (fuel + 1) l = some (.vBool false, r) := by
  conv_lhs => unfold parseJsonVal
  rw [hdw]
  rfl

theorem parseJsonVal_str {fuel : Nat} {l r : List Char}
    (hdw : l.dropWhile isJsonWs = '"' :: r) :
    parseJsonVal (fuel + 1) l =
      (match parseStringBody r with
       | some (s, r2) => some (.vStr (String.mk s), r2)
       | none => none) := by
  conv_lhs => unfold parseJsonVal
  rw [hdw]
  rfl

theorem parseJsonVal_arr_empty {fuel : Nat} {l r r2 : List Char}
    (hdw : l.dropWhile isJsonWs = '[' :: r)
    (hdw2 : r.dropWhile isJsonWs = ']' :: r2) :
    parseJsonVal (fuel + 1) l = some (.vArr [], r2) := by
  conv_lhs => unfold parseJsonVal
  rw [hdw]
  show (match r.dropWhile isJsonWs with
    | ']' :: r2 => some (JSVal.vArr [], r2)
    | _ =>
      match parseJsonItems fuel r with
      | some (xs, r2) => some (JSVal.vArr xs, r2)
      | none => none) = some (JSVal.vArr [], r2)
  rw [hdw2]
  rfl

theorem parseJsonVal_arr_items {fuel : Nat} {l r : List Char} {c : Char} {w : List Char}
    (hdw : l.dropWhile isJsonWs = '[' :: r)
    (hdw2 : r.dropWhile isJsonWs = c :: w) (hne : c ≠ ']') :
    parseJsonVal (fuel + 1) l =
      (match parseJsonItems fuel r with
       | some (xs, r2) => some (.vArr xs, r2)
       | none => none) := by
  conv_lhs => unfold parseJsonVal
  rw [hdw]
  show (match r.dropWhile isJsonWs with
    | ']' :: r2 => some (JSVal.vArr [], r2)
    | _ =>
      match parseJsonItems fuel r with
      | some (xs, r2) => some (JSVal.vArr xs, r2)
      | none => none) = _
  rw [hdw2]
  split
  · rename_i heq
    rw [List.cons.injEq] at heq
    exact absurd heq.1 hne
  · rfl

theorem parseJsonVal_obj_fields {fuel : Nat} {l r : List Char} {c : Char} {w : List Char}
    (hdw : l.dropWhile isJsonWs = '\x7b' :: r)
    (hdw2 : r.dropWhile isJsonWs = c :: w) (hne : c ≠ '\x7d') :
    parseJsonVal (fuel + 1) l =
      (match parseJsonFields fuel r with
       | some (fs, r2) => some (.vObj fs, r2)
       | none => none) := by
  conv_lhs => unfold parseJsonVal
  rw [hdw]
  show (match r.dropWhile isJsonWs with
    | '\x7d' :: r2 => some (JSVal.vObj [], r2)
    | _ =>
      match parseJsonFields fuel r with
      | some (fs, r2) => some (JSVal.vObj fs, r2)
      | none => none) = _
  rw [hdw2]
  split
  · rename_i heq
    rw [List.cons.injEq] at heq
    exact absurd heq.1 hne
  · rfl

theorem parseJsonVal_obj_empty {fuel : Nat} {l r r2 : List Char}
    (hdw : l.dropWhile isJsonWs = '\x7b' :: r)
    (hdw2 : r.dropWhile isJsonWs = '\x7d' :: r2) :
    parseJsonVal (fuel + 1) l = some (.vObj [], r2) := by
  conv_lhs => unfold parseJsonVal
  rw [hdw]
  show (match r.dropWhile isJsonWs with
    | '\x7d' :: r2 => some (JSVal.vObj [], r2)
    | _ =>
      match parseJsonFields fuel r with
      | some (fs, r2) => some (JSVal.vObj fs, r2)
      | none => none) = some (JSVal.vObj [], r2)
  rw [hdw2]
  rfl

theorem parseJsonVal_num {fuel : Nat} {l : List Char} {c : Char} {w : List Char}
    (hdw : l.dropWhile isJsonWs = c :: w)
    (h1 : c ≠ 'n') (h2 : c ≠ 't') (h3 : c ≠ 'f') (h4 : c ≠ '"') (h5 : c ≠ '[')
    (h6 : c ≠ '\x7b') :
    parseJsonVal (fuel + 1) l =
      (match parseJsonNumber (c :: w) with
       | some (n, r) => some (.vNum n, r)
       | none => none) := by
  conv_lhs => unfold parseJsonVal
  rw [hdw]
  split
  · rename_i heq
    rw [List.cons.injEq] at heq
    exact absurd heq.1 h1
  · rename_i heq
    rw [List.cons.injEq] at heq
    exact absurd heq.1 h2
  · rename_i heq
    rw [List.cons.injEq] at heq
    exact absurd heq.1 h3
  · rename_i heq
    rw [List.cons.injEq] at heq
    exact absurd heq.1 h4
  · rename_i heq
    rw [List.cons.injEq] at heq
    exact absurd heq.1 h5
  · rename_i heq
    rw [List.cons.injEq] at heq
    exact absurd heq.1 h6
  · rfl

theorem parseJsonItems_succ (fuel : Nat) (l : List Char) :
    parseJsonItems (fuel + 1) l =
      (match parseJsonVal fuel l with
       | none => none
       | some (v, r) =>
         match r.dropWhile isJsonWs with
         | ',' :: r2 =>
           (match parseJsonItems fuel r2 with
            | some (xs, r3) => some (v :: xs, r3)
            | none => none)
         | ']' :: r2 => some ([v], r2)
         | _ => none) := by
  conv_lhs => unfold parseJsonItems

theorem parseJsonFields_quote {fuel : Nat} {l r : List Char}
    (hdw : l.dropWhile isJsonWs = '"' :: r) :
    parseJsonFields (fuel + 1) l =
      (match parseStringBody r with
       | none => none
       | some (k, r2) =>
         match r2.dropWhile isJsonWs with
         | ':' :: r3 =>
           (match parseJsonVal fuel r3 with
            | none => none
            | some (v, r4) =>
              match r4.dropWhile isJsonWs with
              | ',' :: r5 =>
                (match parseJsonFields fuel r5 with
                 | some (fs, r6) => some ((String.mk k, v) :: fs, r6)
                 | none => none)
              | '\x7d' :: r5 => some ([(String.mk k, v)], r5)
              | _ => none)
         | _ => none) := by
  conv_lhs => unfold parseJsonFields
  rw [hdw]
  rfl

theorem renderJson_head (ind : Nat) (v : JSVal) :
    ∃ c cs, renderJson ind v = c :: cs ∧ isJsonWs c = false ∧ c ≠ ']' := by
  cases v with
  | vStr s =>
    exact ⟨'"', (s.data.map escapeChar).flatten ++ ['"'], rfl, by decide, by decide⟩
  | vNum n =>
    by_cases hneg : n < 0
    · refine ⟨'-', renderNat n.natAbs, ?_, by decide, by decide⟩
      show renderInt n = '-' :: renderNat n.natAbs
      unfold renderInt
      rw [if_pos hneg]
    · obtain ⟨c, cs, hcons⟩ : ∃ c cs, renderNat n.natAbs = c :: cs := by
        cases hl : renderNat n.natAbs with
        | nil => exact absurd hl (renderNat_ne_nil _)
        | cons c cs => exact ⟨c, cs, rfl⟩
      have hdig : c.isDigit = true := renderNat_digits n.natAbs c (by rw [hcons]; simp)
      refine ⟨c, cs, ?_, isJsonWs_false_of_isDigit hdig, ne_of_isDigit hdig _ (by decide)⟩
      show renderInt n = c :: cs
      unfold renderInt
      rw [if_neg hneg]
      exact hcons
  | vBool b =>
    cases b
    · exact ⟨'f', ['a', 'l', 's', 'e'], rfl, by decide, by decide⟩
    · exact ⟨'t', ['r', 'u', 'e'], rfl, by decide, by decide⟩
  | vNull => exact ⟨'n', ['u', 'l', 'l'], rfl, by decide, by decide⟩
  | vUndefined => exact ⟨'n', ['u', 'l', 'l'], rfl, by decide, by decide⟩
  | vArr xs =>
    cases xs with
    | nil => exact ⟨'[', [']'], rfl, by decide, by decide⟩
    | cons x rest =>
      exact ⟨'[', '\n' :: (renderItems (ind + 2) (x :: rest) ++
        '\n' :: (indentChars ind ++ [']'])), rfl, by decide, by decide⟩
  | vObj fs =>
    cases fs with
    | nil => exact ⟨'\x7b', ['\x7d'], rfl, by decide, by decide⟩
    | cons f rest =>
      exact ⟨'\x7b', '\n' :: (renderFields (ind + 2) (f :: rest) ++
        '\n' :: (indentChars ind ++ ['\x7d'])), rfl, by decide, by decide⟩

theorem parse_render (fuel : Nat) :
    (∀ v ind pre rest, jsonSafe v = true → jsonFuelV v ≤ fuel →
      pre.all isJsonWs = true → restOk rest = true →
      parseJsonVal fuel (pre ++ (renderJson ind v ++ rest)) = some (v, rest)) ∧
    (∀ x xs ind jnd pre rest, jsonSafeItems (x :: xs) = true →
      jsonFuelItems (x :: xs) ≤ fuel → pre.all isJsonWs = true →
      parseJsonItems fuel (pre ++ (renderItems ind (x :: xs) ++
        ('\n' :: (indentChars jnd ++ (']' :: rest))))) = some (x :: xs, rest)) ∧
    (∀ k v gs ind jnd pre rest, jsonSafeFields ((k, v) :: gs) = true →
      jsonFuelFields ((k, v) :: gs) ≤ fuel → pre.all isJsonWs = true →
      parseJsonFields fuel (pre ++ (renderFields ind ((k, v) :: gs) ++
        ('\n' :: (indentChars jnd ++ ('\x7d' :: rest))))) = some ((k, v) :: gs, rest)) := by
  induction fuel with
  | zero =>
    refine ⟨?_, ?_, ?_⟩
    · intro v ind pre rest _ hfuel _ _
      exact absurd hfuel (by have := jsonFuelV_pos v; omega)
    · intro x xs ind jnd pre rest _ hfuel _
      exact absurd hfuel (by have := jsonFuelItems_pos (x :: xs); omega)
    · intro k v gs ind jnd pre rest _ hfuel _
      exact absurd hfuel (by have := jsonFuelFields_pos ((k, v) :: gs); omega)
  | succ f ih =>
    obtain ⟨ihV, ihI, ihF⟩ := ih
    refine ⟨?_, ?_, ?_⟩
    · -- values
      intro v ind pre rest hsafe hfuel hpre hrest
      have hpre' : ∀ a ∈ pre, isJsonWs a = true := List.all_eq_true.mp hpre
      cases v with
      | vStr s =>
        have hdw : (pre ++ (renderJson ind (.vStr s) ++ rest)).dropWhile isJsonWs =
            '"' :: ((s.data.map escapeChar).flatten ++ '"' :: rest) := by
          show (pre ++ (('"' :: ((s.data.map escapeChar).flatten ++ ['"'])) ++ rest)).dropWhile
            isJsonWs = _
          rw [show ('"' :: ((s.data.map escapeChar).flatten ++ ['"'])) ++ rest =
            '"' :: ((s.data.map escapeChar).flatten ++ '"' :: rest) from by simp]
          exact dropWhile_ws_concat pre hpre' '"' (by decide) _
        rw [parseJsonVal_str hdw, parseStringBody_render]
      | vNum n =>
        have hshape : ∃ c cs, renderInt n = c :: cs ∧ isJsonWs c = false ∧ c ≠ 'n' ∧
            c ≠ 't' ∧ c ≠ 'f' ∧ c ≠ '"' ∧ c ≠ '[' ∧ c ≠ '\x7b' := by
          by_cases hneg : n < 0
          · refine ⟨'-', renderNat n.natAbs, ?_, by decide, by decide, by decide, by decide,
              by decide, by decide, by decide⟩
            unfold renderInt
            rw [if_pos hneg]
          · obtain ⟨c, cs, hcons⟩ : ∃ c cs, renderNat n.natAbs = c :: cs := by
              cases hl : renderNat n.natAbs with
              | nil => exact absurd hl (renderNat_ne_nil _)
              | cons c cs => exact ⟨c, cs, rfl⟩
            have hdig : c.isDigit = true := renderNat_digits n.natAbs c (by rw [hcons]; simp)
            refine ⟨c, cs, ?_, isJsonWs_false_of_isDigit hdig,
              ne_of_isDigit hdig _ (by decide), ne_of_isDigit hdig _ (by decide),
              ne_of_isDigit hdig _ (by decide), ne_of_isDigit hdig _ (by decide),
              ne_of_isDigit hdig _ (by decide), ne_of_isDigit hdig _ (by decide)⟩
            unfold renderInt
            rw [if_neg hneg]
            exact hcons
        obtain ⟨c, cs, hcons, hws, h1, h2, h3, h4, h5, h6⟩ := hshape
        have hdw : (pre ++ (renderJson ind (.vNum n) ++ rest)).dropWhile isJsonWs =
            c :: (cs ++ rest) := by
          show (pre ++ (renderInt n ++ rest)).dropWhile isJsonWs = _
          rw [show renderInt n ++ rest = c :: (cs ++ rest) from by rw [hcons]; simp]
          exact dropWhile_ws_concat pre hpre' c hws _
        rw [parseJsonVal_num hdw h1 h2 h3 h4 h5 h6]
        rw [show c :: (cs ++ rest) = renderInt n ++ rest from by rw [hcons]; simp]
        rw [parseJsonNumber_render n rest hrest]
      | vBool b =>
        cases b with
        | true =>
          have hdw : (pre ++ (renderJson ind (.vBool true) ++ rest)).dropWhile isJsonWs =
              't' :: 'r' :: 'u' :: 'e' :: rest := by
            show (pre ++ (['t', 'r', 'u', 'e'] ++ rest)).dropWhile isJsonWs = _
            rw [show ['t', 'r', 'u', 'e'] ++ rest = 't' :: ('r' :: 'u' :: 'e' :: rest) from
              by simp]
            exact dropWhile_ws_concat pre hpre' 't' (by decide) _
          rw [parseJsonVal_true hdw]
        | false =>
          have hdw : (pre ++ (renderJson ind (.vBool false) ++ rest)).dropWhile isJsonWs =
              'f' :: 'a' :: 'l' :: 's' :: 'e' :: rest := by
            show (pre ++ (['f', 'a', 'l', 's', 'e'] ++ rest)).dropWhile isJsonWs = _
            rw [show ['f', 'a', 'l', 's', 'e'] ++ rest =
              'f' :: ('a' :: 'l' :: 's' :: 'e' :: rest) from by simp]
            exact dropWhile_ws_concat pre hpre' 'f' (by decide) _
          rw [parseJsonVal_false hdw]
      | vNull =>
        have hdw : (pre ++ (renderJson ind .vNull ++ rest)).dropWhile isJsonWs =
            'n' :: 'u' :: 'l' :: 'l' :: rest := by
          show (pre ++ (['n', 'u', 'l', 'l'] ++ rest)).dropWhile isJsonWs = _
          rw [show ['n', 'u', 'l', 'l'] ++ rest = 'n' :: ('u' :: 'l' :: 'l' :: rest) from
            by simp]
          exact dropWhile_ws_concat pre hpre' 'n' (by decide) _
        rw [parseJsonVal_null hdw]
      | vUndefined => simp [jsonSafe] at hsafe
      | vArr xs =>
        cases xs with
        | nil =>
          have hdw : (pre ++ (renderJson ind (.vArr []) ++ rest)).dropWhile isJsonWs =
              '[' :: (']' :: rest) := by
            show (pre ++ (['[', ']'] ++ rest)).dropWhile isJsonWs = _
            rw [show ['[', ']'] ++ rest = '[' :: (']' :: rest) from by simp]
            exact dropWhile_ws_concat pre hpre' '[' (by decide) _
          have hdw2 : (']' :: rest).dropWhile isJsonWs = ']' :: rest :=
            List.dropWhile_cons_of_neg (by decide)
          rw [parseJsonVal_arr_empty hdw hdw2]
        | cons x xs =>
          obtain ⟨T, hT⟩ : ∃ T, renderItems (ind + 2) (x :: xs) =
              indentChars (ind + 2) ++ (renderJson (ind + 2) x ++ T) := by
            cases xs with
            | nil => exact ⟨[], by simp [renderItems]⟩
            | cons y ys =>
              exact ⟨',' :: '\n' :: renderItems (ind + 2) (y :: ys), by simp [renderItems]⟩
          obtain ⟨c, cs, hx, hcws, hcne⟩ := renderJson_head (ind + 2) x
          have hdw : (pre ++ (renderJson ind (.vArr (x :: xs)) ++ rest)).dropWhile isJsonWs =
              '[' :: ('\n' :: (renderItems (ind + 2) (x :: xs) ++
                ('\n' :: (indentChars ind ++ (']' :: rest))))) := by
            show (pre ++ (('[' :: '\n' :: (renderItems (ind + 2) (x :: xs) ++
              '\n' :: (indentChars ind ++ [']']))) ++ rest)).dropWhile isJsonWs = _
            rw [show ('[' :: '\n' :: (renderItems (ind + 2) (x :: xs) ++
                '\n' :: (indentChars ind ++ [']']))) ++ rest =
              '[' :: ('\n' :: (renderItems (ind + 2) (x :: xs) ++
                ('\n' :: (indentChars ind ++ (']' :: rest))))) from by simp]
            exact dropWhile_ws_concat pre hpre' '[' (by decide) _
          have hdw2 : ('\n' :: (renderItems (ind + 2) (x :: xs) ++
              ('\n' :: (indentChars ind ++ (']' :: rest))))).dropWhile isJsonWs =
              c :: (cs ++ (T ++ ('\n' :: (indentChars ind ++ (']' :: rest))))) := by
            rw [show '\n' :: (renderItems (ind + 2) (x :: xs) ++
                ('\n' :: (indentChars ind ++ (']' :: rest)))) =
              ('\n' :: indentChars (ind + 2)) ++
                (c :: (cs ++ (T ++ ('\n' :: (indentChars ind ++ (']' :: rest)))))) from by
              rw [hT, hx]; simp]
            refine dropWhile_ws_concat _ ?_ c hcws _
            intro a ha
            rcases List.mem_cons.mp ha with rfl | ha2
            · decide
            · exact indentChars_all_ws _ a ha2
          rw [parseJsonVal_arr_items hdw hdw2 hcne]
          have hsafe' : jsonSafeItems (x :: xs) = true := hsafe
          have hfuel' : jsonFuelItems (x :: xs) ≤ f := by
            have h0 : jsonFuelV (.vArr (x :: xs)) = 1 + jsonFuelItems (x :: xs) := rfl
            omega
          have hitems : parseJsonItems f ('\n' :: (renderItems (ind + 2) (x :: xs) ++
              ('\n' :: (indentChars ind ++ (']' :: rest))))) = some (x :: xs, rest) :=
            ihI x xs (ind + 2) ind ['\n'] rest hsafe' hfuel' (by decide)
          rw [hitems]
      | vObj fs =>
        cases fs with
        | nil =>
          have hdw : (pre ++ (renderJson ind (.vObj []) ++ rest)).dropWhile isJsonWs =
              '\x7b' :: ('\x7d' :: rest) := by
            show (pre ++ (['\x7b', '\x7d'] ++ rest)).dropWhile isJsonWs = _
            rw [show ['\x7b', '\x7d'] ++ rest = '\x7b' :: ('\x7d' :: rest) from by simp]
            exact dropWhile_ws_concat pre hpre' '\x7b' (by decide) _
          have hdw2 : ('\x7d' :: rest).dropWhile isJsonWs = '\x7d' :: rest :=
            List.dropWhile_cons_of_neg (by decide)
          rw [parseJsonVal_obj_empty hdw hdw2]
        | cons g gs =>
          obtain ⟨k, v⟩ := g
          obtain ⟨W, hW⟩ : ∃ W, renderFields (ind + 2) ((k, v) :: gs) =
              indentChars (ind + 2) ++ ('"' :: W) := by
            cases gs with
            | nil =>
              exact ⟨(k.data.map escapeChar).flatten ++
                ('"' :: (':' :: ' ' :: renderJson (ind + 2) v)), by
                  simp [renderFields, renderString]⟩
            | cons g2 gs2 =>
              exact ⟨(k.data.map escapeChar).flatten ++
                ('"' :: (':' :: ' ' :: (renderJson (ind + 2) v ++
                  (',' :: '\n' :: renderFields (ind + 2) (g2 :: gs2))))), by
                  simp [renderFields, renderString]⟩
          have hdw : (pre ++ (renderJson ind (.vObj ((k, v) :: gs)) ++ rest)).dropWhile
              isJsonWs =
              '\x7b' :: ('\n' :: (renderFields (ind + 2) ((k, v) :: gs) ++
                ('\n' :: (indentChars ind ++ ('\x7d' :: rest))))) := by
            show (pre ++ (('\x7b' :: '\n' :: (renderFields (ind + 2) ((k, v) :: gs) ++
              '\n' :: (indentChars ind ++ ['\x7d']))) ++ rest)).dropWhile isJsonWs = _
            rw [show ('\x7b' :: '\n' :: (renderFields (ind + 2) ((k, v) :: gs) ++
                '\n' :: (indentChars ind ++ ['\x7d']))) ++ rest =
              '\x7b' :: ('\n' :: (renderFields (ind + 2) ((k, v) :: gs) ++
                ('\n' :: (indentChars ind ++ ('\x7d' :: rest))))) from by simp]
            exact dropWhile_ws_concat pre hpre' '\x7b' (by decide) _
          have hdw2 : ('\n' :: (renderFields (ind + 2) ((k, v) :: gs) ++
              ('\n' :: (indentChars ind ++ ('\x7d' :: rest))))).dropWhile isJsonWs =
              '"' :: (W ++ ('\n' :: (indentChars ind ++ ('\x7d' :: rest)))) := by
            rw [show '\n' :: (renderFields (ind + 2) ((k, v) :: gs) ++
                ('\n' :: (indentChars ind ++ ('\x7d' :: rest)))) =
              ('\n' :: indentChars (ind + 2)) ++
                ('"' :: (W ++ ('\n' :: (indentChars ind ++ ('\x7d' :: rest))))) from by
              rw [hW]; simp]
            refine dropWhile_ws_concat _ ?_ '"' (by decide) _
            intro a ha
            rcases List.mem_cons.mp ha with rfl | ha2
            · decide
            · exact indentChars_all_ws _ a ha2
          rw [parseJsonVal_obj_fields hdw hdw2 (by decide)]
          have hsafe' : jsonSafeFields ((k, v) :: gs) = true := by
            simp only [jsonSafe, Bool.and_eq_true] at hsafe
            exact hsafe.2
          have hfuel' : jsonFuelFields ((k, v) :: gs) ≤ f := by
            have h0 : jsonFuelV (.vObj ((k, v) :: gs)) =
                1 + jsonFuelFields ((k, v) :: gs) := rfl
            omega
          have hfields : parseJsonFields f ('\n' :: (renderFields (ind + 2) ((k, v) :: gs) ++
              ('\n' :: (indentChars ind ++ ('\x7d' :: rest))))) =
              some ((k, v) :: gs, rest) :=
            ihF k v gs (ind + 2) ind ['\n'] rest hsafe' hfuel' (by decide)
          rw [hfields]
    · -- items
      intro x xs ind jnd pre rest hsafe hfuel hpre
      have hpre' : ∀ a ∈ pre, isJsonWs a = true := List.all_eq_true.mp hpre
      have hs0 : (jsonSafe x && jsonSafeItems xs) = true := hsafe
      rw [Bool.and_eq_true] at hs0
      have hf0 : 1 + max (jsonFuelV x) (jsonFuelItems xs) ≤ f + 1 := hfuel
      have hfx : jsonFuelV x ≤ f := by omega
      have hfxs : jsonFuelItems xs ≤ f := by omega
      have hws2 : ((pre ++ indentChars ind).all isJsonWs) = true := by
        rw [List.all_append, hpre, List.all_eq_true.mpr (indentChars_all_ws ind)]
        rfl
      rw [parseJsonItems_succ]
      cases xs with
      | nil =>
        have hval : parseJsonVal f (pre ++ (renderItems ind [x] ++
            ('\n' :: (indentChars jnd ++ (']' :: rest))))) =
            some (x, '\n' :: (indentChars jnd ++ (']' :: rest))) := by
          have h2 := ihV x ind (pre ++ indentChars ind)
            ('\n' :: (indentChars jnd ++ (']' :: rest))) hs0.1 hfx hws2 (by rfl)
          rw [show pre ++ (renderItems ind [x] ++
              ('\n' :: (indentChars jnd ++ (']' :: rest)))) =
            (pre ++ indentChars ind) ++ (renderJson ind x ++
              ('\n' :: (indentChars jnd ++ (']' :: rest)))) from by
            simp [renderItems]]
          exact h2
        simp only [hval]
        rw [show ('\n' :: (indentChars jnd ++ (']' :: rest))).dropWhile isJsonWs =
            ']' :: rest from by
          rw [show '\n' :: (indentChars jnd ++ (']' :: rest)) =
            ('\n' :: indentChars jnd) ++ (']' :: rest) from by simp]
          refine dropWhile_ws_concat _ ?_ ']' (by decide) _
          intro a ha
          rcases List.mem_cons.mp ha with rfl | ha2
          · decide
          · exact indentChars_all_ws _ a ha2]
        rfl
      | cons y ys =>
        have hval : parseJsonVal f (pre ++ (renderItems ind (x :: y :: ys) ++
            ('\n' :: (indentChars jnd ++ (']' :: rest))))) =
            some (x, ',' :: ('\n' :: (renderItems ind (y :: ys) ++
              ('\n' :: (indentChars jnd ++ (']' :: rest)))))) := by
          have h2 := ihV x ind (pre ++ indentChars ind)
            (',' :: ('\n' :: (renderItems ind (y :: ys) ++
              ('\n' :: (indentChars jnd ++ (']' :: rest)))))) hs0.1 hfx hws2 (by rfl)
          rw [show pre ++ (renderItems ind (x :: y :: ys) ++
              ('\n' :: (indentChars jnd ++ (']' :: rest)))) =
            (pre ++ indentChars ind) ++ (renderJson ind x ++
              (',' :: ('\n' :: (renderItems ind (y :: ys) ++
                ('\n' :: (indentChars jnd ++ (']' :: rest))))))) from by
            simp [renderItems]]
          exact h2
        simp only [hval]
        rw [List.dropWhile_cons_of_neg (by decide : ¬ isJsonWs ',' = true)]
        have hrec : parseJsonItems f ('\n' :: (renderItems ind (y :: ys) ++
            ('\n' :: (indentChars jnd ++ (']' :: rest))))) = some (y :: ys, rest) :=
          ihI y ys ind jnd ['\n'] rest hs0.2 hfxs (by decide)
        simp only [hrec]
    · -- fields
      intro k v gs ind jnd pre rest hsafe hfuel hpre
      have hpre' : ∀ a ∈ pre, isJsonWs a = true := List.all_eq_true.mp hpre
      have hs0 : (jsonSafe v && jsonSafeFields gs) = true := hsafe
      rw [Bool.and_eq_true] at hs0
      have hf0 : 1 + max (jsonFuelV v) (jsonFuelFields gs) ≤ f + 1 := hfuel
      have hfv : jsonFuelV v ≤ f := by omega
      have hfgs : jsonFuelFields gs ≤ f := by omega
      have hws2 : ((pre ++ indentChars ind).all isJsonWs) = true := by
        rw [List.all_append, hpre, List.all_eq_true.mpr (indentChars_all_ws ind)]
        rfl
      have hdrop4 : ('\n' :: (indentChars jnd ++ ('\x7d' :: rest))).dropWhile isJsonWs =
          '\x7d' :: rest := by
        rw [show '\n' :: (indentChars jnd ++ ('\x7d' :: rest)) =
          ('\n' :: indentChars jnd) ++ ('\x7d' :: rest) from by simp]
        refine dropWhile_ws_concat _ ?_ '\x7d' (by decide) _
        intro a ha
        rcases List.mem_cons.mp ha with rfl | ha2
        · decide
        · exact indentChars_all_ws _ a ha2
      cases gs with
      | nil =>
        have hdw : (pre ++ (renderFields ind [(k, v)] ++
            ('\n' :: (indentChars jnd ++ ('\x7d' :: rest))))).dropWhile isJsonWs =
            '"' :: ((k.data.map escapeChar).flatten ++ '"' :: (':' :: (' ' ::
              (renderJson ind v ++ ('\n' :: (indentChars jnd ++ ('\x7d' :: rest))))))) := by
          rw [show pre ++ (renderFields ind [(k, v)] ++
              ('\n' :: (indentChars jnd ++ ('\x7d' :: rest)))) =
            (pre ++ indentChars ind) ++ ('"' :: ((k.data.map escapeChar).flatten ++
              '"' :: (':' :: (' ' :: (renderJson ind v ++
                ('\n' :: (indentChars jnd ++ ('\x7d' :: rest)))))))) from by
            simp [renderFields, renderString]]
          exact dropWhile_ws_concat _ (List.all_eq_true.mp hws2) '"' (by decide) _
        rw [parseJsonFields_quote hdw]
        simp only [parseStringBody_render]
        rw [List.dropWhile_cons_of_neg (by decide : ¬ isJsonWs ':' = true)]
        have hval : parseJsonVal f (' ' :: (renderJson ind v ++
            ('\n' :: (indentChars jnd ++ ('\x7d' :: rest))))) =
            some (v, '\n' :: (indentChars jnd ++ ('\x7d' :: rest))) :=
          ihV v ind [' '] ('\n' :: (indentChars jnd ++ ('\x7d' :: rest))) hs0.1 hfv
            (by decide) (by rfl)
        simp only [hval]
        rw [hdrop4]
        rfl
      | cons g2 gs2 =>
        obtain ⟨k2, v2⟩ := g2
        have heq0 : pre ++ (renderFields ind ((k, v) :: (k2, v2) :: gs2) ++ ('\n' :: (indentChars jnd ++ ('\x7d' :: rest)))) =
            (pre ++ indentChars ind) ++ ('"' :: ((k.data.map escapeChar).flatten ++ '"' :: (':' :: (' ' :: (renderJson ind v ++ (',' :: ('\n' :: (renderFields ind ((k2, v2) :: gs2) ++ ('\n' :: (indentChars jnd ++ ('\x7d' :: rest))))))))))) := by
          simp [renderFields, renderString]
        have hdw : (pre ++ (renderFields ind ((k, v) :: (k2, v2) :: gs2) ++ ('\n' :: (indentChars jnd ++ ('\x7d' :: rest))))).dropWhile isJsonWs =
            '"' :: ((k.data.map escapeChar).flatten ++ '"' :: (':' :: (' ' :: (renderJson ind v ++ (',' :: ('\n' :: (renderFields ind ((k2, v2) :: gs2) ++ ('\n' :: (indentChars jnd ++ ('\x7d' :: rest)))))))))) := by
          rw [heq0]
          exact dropWhile_ws_concat _ (List.all_eq_true.mp hws2) '"' (by decide) _
        rw [parseJsonFields_quote hdw]
        simp only [parseStringBody_render]
        rw [List.dropWhile_cons_of_neg (by decide : ¬ isJsonWs ':' = true)]
        have hval : parseJsonVal f (' ' :: (renderJson ind v ++ (',' :: ('\n' ::
            (renderFields ind ((k2, v2) :: gs2) ++
              ('\n' :: (indentChars jnd ++ ('\x7d' :: rest)))))))) =
            some (v, ',' :: ('\n' :: (renderFields ind ((k2, v2) :: gs2) ++
              ('\n' :: (indentChars jnd ++ ('\x7d' :: rest)))))) :=
          ihV v ind [' '] (',' :: ('\n' :: (renderFields ind ((k2, v2) :: gs2) ++
            ('\n' :: (indentChars jnd ++ ('\x7d' :: rest)))))) hs0.1 hfv
            (by decide) (by rfl)
        simp only [hval]
        rw [List.dropWhile_cons_of_neg (by decide : ¬ isJsonWs ',' = true)]
        have hrec : parseJsonFields f ('\n' :: (renderFields ind ((k2, v2) :: gs2) ++
            ('\n' :: (indentChars jnd ++ ('\x7d' :: rest))))) =
            some ((k2, v2) :: gs2, rest) :=
          ihF k2 v2 gs2 ind jnd ['\n'] rest hs0.2 hfgs (by decide)
        simp only [hrec]

theorem jsonFuel_le_render (fuel : Nat) :
    (∀ v ind, jsonFuelV v ≤ fuel → jsonFuelV v ≤ (renderJson ind v).length + 1) ∧
    (∀ x xs ind, jsonFuelItems (x :: xs) ≤ fuel →
      jsonFuelItems (x :: xs) ≤ (renderItems ind (x :: xs)).length + 2) ∧
    (∀ k v gs ind, jsonFuelFields ((k, v) :: gs) ≤ fuel →
      jsonFuelFields ((k, v) :: gs) ≤ (renderFields ind ((k, v) :: gs)).length + 2) := by
  induction fuel with
  | zero =>
    refine ⟨?_, ?_, ?_⟩
    · intro v ind hf
      exact absurd hf (by have := jsonFuelV_pos v; omega)
    · intro x xs ind hf
      exact absurd hf (by have := jsonFuelItems_pos (x :: xs); omega)
    · intro k v gs ind hf
      exact absurd hf (by have := jsonFuelFields_pos ((k, v) :: gs); omega)
  | succ f ih =>
    obtain ⟨ihV, ihI, ihF⟩ := ih
    refine ⟨?_, ?_, ?_⟩
    · intro v ind hf
      cases v with
      | vStr s => simp [jsonFuelV]
      | vNum n => simp [jsonFuelV]
      | vBool b => simp [jsonFuelV]
      | vNull => simp [jsonFuelV]
      | vUndefined => simp [jsonFuelV]
      | vArr xs =>
        cases xs with
        | nil => simp [jsonFuelV, jsonFuelItems, renderJson]
        | cons x xs2 =>
          have h0 : jsonFuelV (.vArr (x :: xs2)) = 1 + jsonFuelItems (x :: xs2) := rfl
          have h1 : jsonFuelItems (x :: xs2) ≤ f := by omega
          have h2 := ihI x xs2 (ind + 2) h1
          have h3 : (renderJson ind (.vArr (x :: xs2))).length =
              (renderItems (ind + 2) (x :: xs2)).length + ind + 4 := by
            show ('[' :: '\n' :: (renderItems (ind + 2) (x :: xs2) ++
              '\n' :: (indentChars ind ++ [']']))).length = _
            simp [indentChars]
            omega
          omega
      | vObj fs =>
        cases fs with
        | nil => simp [jsonFuelV, jsonFuelFields, renderJson]
        | cons g gs2 =>
          obtain ⟨k, v⟩ := g
          have h0 : jsonFuelV (.vObj ((k, v) :: gs2)) =
              1 + jsonFuelFields ((k, v) :: gs2) := rfl
          have h1 : jsonFuelFields ((k, v) :: gs2) ≤ f := by omega
          have h2 := ihF k v gs2 (ind + 2) h1
          have h3 : (renderJson ind (.vObj ((k, v) :: gs2))).length =
              (renderFields (ind + 2) ((k, v) :: gs2)).length + ind + 4 := by
            show ('\x7b' :: '\n' :: (renderFields (ind + 2) ((k, v) :: gs2) ++
              '\n' :: (indentChars ind ++ ['\x7d']))).length = _
            simp [indentChars]
            omega
          omega
    · intro x xs ind hf
      have h0 : jsonFuelItems (x :: xs) = 1 + max (jsonFuelV x) (jsonFuelItems xs) := rfl
      have hx : jsonFuelV x ≤ f := by
        have := Nat.le_max_left (jsonFuelV x) (jsonFuelItems xs)
        omega
      have h2 := ihV x ind hx
      cases xs with
      | nil =>
        have h3 : (renderItems ind [x]).length = ind + (renderJson ind x).length := by
          show (indentChars ind ++ renderJson ind x).length = _
          simp [indentChars]
        have h4 : jsonFuelItems ([] : List JSVal) = 1 := rfl
        omega
      | cons y ys =>
        have hy : jsonFuelItems (y :: ys) ≤ f := by
          have := Nat.le_max_right (jsonFuelV x) (jsonFuelItems (y :: ys))
          omega
        have h5 := ihI y ys ind hy
        have h3 : (renderItems ind (x :: y :: ys)).length =
            ind + (renderJson ind x).length + 2 + (renderItems ind (y :: ys)).length := by
          show (indentChars ind ++ (renderJson ind x ++
            ',' :: '\n' :: renderItems ind (y :: ys))).length = _
          simp [indentChars]
          omega
        omega
    · intro k v gs ind hf
      have h0 : jsonFuelFields ((k, v) :: gs) = 1 + max (jsonFuelV v) (jsonFuelFields gs) :=
        rfl
      have hx : jsonFuelV v ≤ f := by
        have := Nat.le_max_left (jsonFuelV v) (jsonFuelFields gs)
        omega
      have h2 := ihV v ind hx
      cases gs with
      | nil =>
        have h3 : (renderFields ind [(k, v)]).length =
            ind + (renderString k).length + 2 + (renderJson ind v).length := by
          show (indentChars ind ++ (renderString k ++
            ':' :: ' ' :: renderJson ind v)).length = _
          simp [indentChars]
          omega
        have h4 : jsonFuelFields ([] : List (String × JSVal)) = 1 := rfl
        omega
      | cons g2 gs2 =>
        obtain ⟨k2, v2⟩ := g2
        have hy : jsonFuelFields ((k2, v2) :: gs2) ≤ f := by
          have := Nat.le_max_right (jsonFuelV v) (jsonFuelFields ((k2, v2) :: gs2))
          omega
        have h5 := ihF k2 v2 gs2 ind hy
        have h3 : (renderFields ind ((k, v) :: (k2, v2) :: gs2)).length =
            ind + (renderString k).length + 2 + (renderJson ind v).length + 2 +
              (renderFields ind ((k2, v2) :: gs2)).length := by
          show (indentChars ind ++ (renderString k ++ ':' :: ' ' :: (renderJson ind v ++
            ',' :: '\n' :: renderFields ind ((k2, v2) :: gs2)))).length = _
          simp [indentChars]
          omega
        omega

theorem jsonFuelV_le_render (v : JSVal) (ind : Nat) :
    jsonFuelV v ≤ (renderJson ind v).length + 1 :=
  (jsonFuel_le_render (jsonFuelV v)).1 v ind le_rfl

theorem jsonParse_export (ts : List JSVal) (hsafe : jsonSafeItems ts = true) :
    jsonParse (exportTemplates ts) = some (.vArr ts) := by
  have hfuel : jsonFuelV (.vArr ts) ≤ (renderJson 0 (.vArr ts)).length + 1 :=
    jsonFuelV_le_render (.vArr ts) 0
  have h := ((parse_render ((renderJson 0 (.vArr ts)).length + 1)).1
    (.vArr ts) 0 [] [] hsafe hfuel rfl rfl)
  simp only [List.nil_append, List.append_nil] at h
  show (match parseJsonVal ((exportTemplates ts).length + 1) (exportTemplates ts).data with
    | some (v, rest) => if (rest.dropWhile isJsonWs).isEmpty then some v else none
    | none => none) = some (.vArr ts)
  have hlen : (exportTemplates ts).length = (renderJson 0 (.vArr ts)).length := rfl
  have hdata : (exportTemplates ts).data = renderJson 0 (.vArr ts) := rfl
  rw [hlen, hdata, h]
  rfl

theorem if_singleton_eq_nil {C : Prop} [Decidable C] {e : String}
    (h : (if C then [e] else []) = []) : ¬ C := by
  by_cases hc : C
  · rw [if_pos hc] at h
    cases h
  · exact hc

theorem validateTemplate_spread_id {t : JSVal} (hv : (validateTemplate t).isValid = true)
    (fid : String) (hfid : fid ≠ "") :
    (validateTemplate (jsSpread t (.vObj [("id", .vStr fid)]))).isValid = true ∧
    getField (jsSpread t (.vObj [("id", .vStr fid)])) "id" = .vStr fid ∧
    getField (jsSpread t (.vObj [("id", .vStr fid)])) "name" = getField t "name" ∧
    getField (jsSpread t (.vObj [("id", .vStr fid)])) "body" = getField t "body" ∧
    getField (jsSpread t (.vObj [("id", .vStr fid)])) "variables" = getField t "variables" := by
  have hgid : getField (jsSpread t (.vObj [("id", .vStr fid)])) "id" = .vStr fid := by
    rw [getField_jsSpread]
    rfl
  have hgname : getField (jsSpread t (.vObj [("id", .vStr fid)])) "name" =
      getField t "name" := by
    rw [getField_jsSpread]
    rfl
  have hgbody : getField (jsSpread t (.vObj [("id", .vStr fid)])) "body" =
      getField t "body" := by
    rw [getField_jsSpread]
    rfl
  have hgvars : getField (jsSpread t (.vObj [("id", .vStr fid)])) "variables" =
      getField t "variables" := by
    rw [getField_jsSpread]
    rfl
  refine ⟨?_, hgid, hgname, hgbody, hgvars⟩
  obtain ⟨fs, rfl⟩ := valid_is_obj hv
  have herrnil : (validateTemplate (.vObj fs)).errors = [] := by
    rw [validateTemplate_isValid_eq_isEmpty (.vObj fs) rfl rfl] at hv
    exact List.isEmpty_iff.mp hv
  have hshape := validateTemplate_errors_of_object
    (show jsTruthy (.vObj fs) = true from rfl)
    (show jsTypeof (.vObj fs) = "object" from rfl)
  rw [herrnil] at hshape
  have hparts := hshape.symm
  rw [List.append_eq_nil, List.append_eq_nil, List.append_eq_nil] at hparts
  obtain ⟨⟨⟨hid0, hname0⟩, hbody0⟩, hvars0⟩ := hparts
  have htr : jsTruthy (.vStr fid) = true := by
    simp [jsTruthy, bne_iff_ne]
    exact hfid
  have hshape2 := validateTemplate_errors_of_object
    (show jsTruthy (jsSpread (.vObj fs) (.vObj [("id", .vStr fid)])) = true from rfl)
    (show jsTypeof (jsSpread (.vObj fs) (.vObj [("id", .vStr fid)])) = "object" from rfl)
  rw [hgid, hgname, hgbody, hgvars] at hshape2
  rw [validateTemplate_isValid_eq_isEmpty
    (jsSpread (.vObj fs) (.vObj [("id", .vStr fid)])) rfl rfl, hshape2]
  rw [if_neg (show ¬ (¬ jsTruthy (.vStr fid) = true ∨
      jsTypeof (.vStr fid) ≠ "string") from by
    rintro (h | h)
    · exact h htr
    · exact h rfl)]
  rw [if_neg (if_singleton_eq_nil hname0), if_neg (if_singleton_eq_nil hbody0), hvars0]
  rfl

/-- C6: the export/import round trip. Exporting a collection of valid,
serializable templates and importing the result succeeds: the imported
collection has the same length, and each record is the original record
with exactly its id overwritten by the freshly generated id — name, body
and variables are unchanged — and the imported collection wholly
replaces the previously persisted collection regardless of what it was. -/
theorem C6_export_import_roundtrip (state ts : List JSVal) (freshIds : Nat → String)
    (hvalid : ∀ t ∈ ts, (validateTemplate t).isValid = true)
    (hsafe : jsonSafeItems ts = true)
    (hfresh : ∀ i, freshIds i ≠ "") :
    ∃ imported : List JSVal,
      importTemplates state (exportTemplates ts) freshIds = (imported, .ok imported) ∧
      imported.length = ts.length ∧
      ∀ i, i < ts.length →
        ∃ t, ts[i]? = some t ∧
          imported[i]? = some (jsSpread t (.vObj [("id", .vStr (freshIds i))])) ∧
          getField (jsSpread t (.vObj [("id", .vStr (freshIds i))])) "name" =
            getField t "name" ∧
          getField (jsSpread t (.vObj [("id", .vStr (freshIds i))])) "body" =
            getField t "body" ∧
          getField (jsSpread t (.vObj [("id", .vStr (freshIds i))])) "variables" =
            getField t "variables" ∧
          getField (jsSpread t (.vObj [("id", .vStr (freshIds i))])) "id" =
            .vStr (freshIds i) ∧
          (validateTemplate (jsSpread t (.vObj [("id", .vStr (freshIds i))]))).isValid =
            true := by
  refine ⟨ts.enum.map (fun p => jsSpread p.2 (.vObj [("id", .vStr (freshIds p.1))])),
    ?_, ?_, ?_⟩
  · have hfilt : ts.filter (fun t => !(validateTemplate t).isValid) = [] := by
      rw [List.filter_eq_nil_iff]
      intro t ht
      simp [hvalid t ht]
    have hall : ∀ m ∈ ts.enum.map (fun p =>
        jsSpread p.2 (.vObj [("id", .vStr (freshIds p.1))])),
        (validateTemplate m).isValid = true := by
      intro m hm
      obtain ⟨p, hp, hpm⟩ := List.mem_map.mp hm
      subst hpm
      exact (validateTemplate_spread_id (hvalid p.2 (List.snd_mem_of_mem_enum hp))
        (freshIds p.1) (hfresh p.1)).1
    have hsave := saveTemplates_ok_of_all_valid hall
    simp only [importTemplates, jsonParse_export ts hsafe]
    rw [if_neg (show ¬ ¬ (ts.filter (fun t => !(validateTemplate t).isValid)).isEmpty = true
      from fun hc => hc (by rw [hfilt]; rfl))]
    simp only [hsave]
  · simp
  · intro i hi
    refine ⟨ts[i], (List.getElem?_eq_some_getElem_iff ts i hi).mpr trivial, ?_, ?_⟩
    · rw [List.getElem?_map, List.getElem?_enum,
        (List.getElem?_eq_some_getElem_iff ts i hi).mpr trivial]
      rfl
    · obtain ⟨h1, h2, h3, h4, h5⟩ := validateTemplate_spread_id
        (hvalid ts[i] (List.getElem_mem hi)) (freshIds i) (hfresh i)
      exact ⟨h3, h4, h5, h2, h1⟩

theorem C6_witness :
    importTemplates [.vStr "old"]
        (exportTemplates [.vObj [("id", .vStr "a1"), ("name", .vStr "A"),
          ("body", .vStr "b"), ("variables", .vArr [])]])
        (fun _ => "fresh-1") =
      ([.vObj [("id", .vStr "fresh-1"), ("name", .vStr "A"), ("body", .vStr "b"),
        ("variables", .vArr [])]],
       .ok [.vObj [("id", .vStr "fresh-1"), ("name", .vStr "A"), ("body", .vStr "b"),
        ("variables", .vArr [])]]) ∧
    getField (.vObj [("id", .vStr "fresh-1"), ("name", .vStr "A"), ("body", .vStr "b"),
      ("variables", .vArr [])]) "id" = .vStr "fresh-1" ∧
    getField (.vObj [("id", .vStr "fresh-1"), ("name", .vStr "A"), ("body", .vStr "b"),
      ("variables", .vArr [])]) "name" =
      getField (.vObj [("id", .vStr "a1"), ("name", .vStr "A"), ("body", .vStr "b"),
        ("variables", .vArr [])]) "name" := by
  obtain ⟨imported, h1, hlen, hidx⟩ := C6_export_import_roundtrip [.vStr "old"]
    [.vObj [("id", .vStr "a1"), ("name", .vStr "A"), ("body", .vStr "b"),
      ("variables", .vArr [])]]
    (fun _ => "fresh-1")
    (by
      intro t ht
      rw [List.mem_singleton] at ht
      subst ht
      rfl)
    rfl
    (fun i => show ("fresh-1" : String) ≠ "" by decide)
  have h2 : importTemplates [.vStr "old"]
      (exportTemplates [.vObj [("id", .vStr "a1"), ("name", .vStr "A"),
        ("body", .vStr "b"), ("variables", .vArr [])]])
      (fun _ => "fresh-1") =
      (([.vObj [("id", .vStr "fresh-1"), ("name", .vStr "A"), ("body", .vStr "b"),
        ("variables", .vArr [])]] : List JSVal),
       (.ok [.vObj [("id", .vStr "fresh-1"), ("name", .vStr "A"), ("body", .vStr "b"),
        ("variables", .vArr [])]] : Except String (List JSVal))) := by
    rfl
  exact ⟨h2, rfl, rfl⟩
